import Mathlib

/-!
Verification of the runtime method-interception subsystem of `theportables`:
the `InjectionHooks` engine (src/unnamed/part_007) and the
`InjectionRegistry` (src/utils/InjectionRegistry.ts).

The embedding is shallow and split in two layers, mirroring the source:

* a **state layer** (`World`, `InjectionHooks.inject`, `removeInjection`,
  `clearInjections`, `getInjections`, `hasInjections`) modelling the two
  static maps (`injections`, `originalMethods`) together with the method
  slots of the live objects (the "heap").  JavaScript function references
  are modelled by identity: a plain function is `SlotVal.fn fid`, the
  synthesized dispatcher installed by `wrapMethod` is
  `SlotVal.wrappedFn key`; callbacks are tracked by a numeric id, which
  models `===` comparison of function references.  JavaScript `Map`s are
  insertion-ordered association lists (`alistGet`/`alistSet`/`alistDelete`
  reproduce `get`/`set`/`delete` including iteration order).

* a **dispatch layer** (`wrappedCall`) modelling one invocation of the
  synthesized closure `wrapped` built by `wrapMethod`.  Callbacks are
  deep-embedded as `CbAct` programs (return or throw, state update, state
  query, call `proceed()`), so that universally quantified claims range
  over every behaviour a JavaScript callback can exhibit: throwing,
  catching, skipping `proceed`, calling it several times.  The dispatcher
  additionally emits a chronological event trace (`DEvent`) recording
  which callback / original invocation started and which errors the
  engine caught and logged — the observable needed to state execution
  order and isolation properties.

`Array.prototype.sort` with the comparator `(a, b) => b.priority - a.priority`
is, per the ECMAScript specification, a stable sort by descending priority;
it is embedded as Mathlib's stable `List.insertionSort` with the relation
`fun a b => priority b ≤ priority a` (`sortInj`).
-/

/-- The three interception kinds (`'before' | 'after' | 'around'`). -/
inductive IKind : Type where
  | before : IKind
  | after : IKind
  | around : IKind
deriving DecidableEq, Repr

/-- Value stored in a method slot of a live object.  `fn fid` is an ordinary
function reference (identified by `fid`, modelling `===`), `wrappedFn key` is
the dispatcher closure synthesized by `wrapMethod` for `key`, `nonFn` is a
non-function value and `undef` is `undefined` (absent member). -/
inductive SlotVal : Type where
  | fn : Nat → SlotVal
  | wrappedFn : String → SlotVal
  | nonFn : SlotVal
  | undef : SlotVal
deriving DecidableEq, Repr

/-- `typeof v === 'function'`. -/
def SlotVal.isFunction : SlotVal → Bool
  | SlotVal.fn _ => true
  | SlotVal.wrappedFn _ => true
  | _ => false

/-- A live object: its identity `oid` and its `constructor.name`. -/
structure Obj : Type where
  oid : Nat
  className : String
deriving DecidableEq, Repr

/-- Association list reproducing JavaScript `Map.get` (the first — in a
well-formed map the only — binding of the key). -/
def alistGet {κ ν : Type} [DecidableEq κ] : List (κ × ν) → κ → Option ν
  | [], _ => none
  | p :: l, k => if p.1 = k then some p.2 else alistGet l k

/-- Association list reproducing JavaScript `Map.set`: replaces in place if
the key is present (keeping insertion order), else appends at the end. -/
def alistSet {κ ν : Type} [DecidableEq κ] : List (κ × ν) → κ → ν → List (κ × ν)
  | [], k, v => [(k, v)]
  | p :: l, k, v => if p.1 = k then (k, v) :: l else p :: alistSet l k v

/-- Association list reproducing JavaScript `Map.delete`. -/
def alistDelete {κ ν : Type} [DecidableEq κ] : List (κ × ν) → κ → List (κ × ν)
  | [], _ => []
  | p :: l, k => if p.1 = k then l else p :: alistDelete l k

/-- The method slots of all live objects, keyed by (object identity, name). -/
abbrev Heap : Type := List ((Nat × String) × SlotVal)

/-- Read `target[method]`; an absent member is `undefined`. -/
def heapGet (h : Heap) (oid : Nat) (method : String) : SlotVal :=
  (alistGet h (oid, method)).getD SlotVal.undef

/-- Write `target[method] = v`. -/
def heapSet (h : Heap) (oid : Nat) (method : String) (v : SlotVal) : Heap :=
  alistSet h (oid, method) v

/-- One entry of the `injections` map: an `InjectionPoint` with the callback
reference replaced by its identity (only `===` comparisons reach it here). -/
structure InjPointS : Type where
  target : Obj
  method : String
  cbId : Nat
  type : IKind
  priority : Int
deriving DecidableEq, Repr

/-- `list.sort((a, b) => prio(b) - prio(a))`: the ECMAScript stable sort by
descending priority, embedded as the stable `insertionSort`. -/
def sortInj {β : Type} (prio : β → Int) (l : List β) : List β :=
  l.insertionSort (fun a b => prio b ≤ prio a)

/-- The whole mutable state touched by the engine: the objects' method
slots plus the two static maps of `InjectionHooks`. -/
structure World : Type where
  heap : Heap
  injections : List (String × List InjPointS)
  originalMethods : List (String × SlotVal)
deriving DecidableEq, Repr

namespace InjectionHooks

/-- `InjectionHooks.getInjectionKey`. -/
def getInjectionKey (target : Obj) (method : String) : String :=
  target.className ++ "." ++ method

/-- `InjectionHooks.inject` (part_007 lines 32-62).  Returns `Except.error`
for the `throw new Error(...)` path, in which case no state was mutated
(the source throws before any `set`/`push`). -/
def inject (w : World) (target : Obj) (method : String) (cbId : Nat)
    (ty : IKind) (priority : Int) : Except String World :=
  let key := getInjectionKey target method
  let injections0 := (alistGet w.injections key).getD []
  let captured : Except String (List (String × SlotVal)) :=
    match alistGet w.originalMethods key with
    | some _ => Except.ok w.originalMethods
    | none =>
      let original := heapGet w.heap target.oid method
      if original.isFunction then
        Except.ok (alistSet w.originalMethods key original)
      else
        Except.error ("Method " ++ method ++ " does not exist on target")
  match captured with
  | Except.error e => Except.error e
  | Except.ok originals =>
    let pts := sortInj (fun p => p.priority)
      (injections0 ++ [⟨target, method, cbId, ty, priority⟩])
    let w1 : World :=
      { heap := w.heap
        injections := alistSet w.injections key pts
        originalMethods := originals }
    if heapGet w.heap target.oid method = (alistGet originals key).getD SlotVal.undef then
      Except.ok { w1 with
        heap := heapSet w1.heap target.oid method (SlotVal.wrappedFn key) }
    else
      Except.ok w1

/-- `InjectionHooks.removeInjection` (part_007 lines 127-143). -/
def removeInjection (w : World) (target : Obj) (method : String) (cbId : Nat) :
    World :=
  let key := getInjectionKey target method
  match alistGet w.injections key with
  | none => w
  | some injections =>
    match injections.findIdx? (fun i => i.cbId == cbId) with
    | none => w
    | some idx =>
      let injections1 := injections.eraseIdx idx
      if injections1.isEmpty then
        { heap := heapSet w.heap target.oid method
            ((alistGet w.originalMethods key).getD SlotVal.undef)
          injections := alistDelete w.injections key
          originalMethods := alistDelete w.originalMethods key }
      else
        { w with injections := alistSet w.injections key injections1 }

/-- `InjectionHooks.clearInjections` (part_007 lines 145-168).  The guard
`if (target && method)` takes the per-key branch only when both arguments
are supplied; otherwise the global branch runs. -/
def clearInjections (w : World) (target : Option Obj) (method : Option String) :
    World :=
  match target, method with
  | some t, some m =>
    let key := getInjectionKey t m
    if (alistGet w.injections key).isSome then
      { heap := heapSet w.heap t.oid m
          ((alistGet w.originalMethods key).getD SlotVal.undef)
        injections := alistDelete w.injections key
        originalMethods := alistDelete w.originalMethods key }
    else
      w
  | _, _ =>
    let heap1 := w.originalMethods.foldl
      (fun h kv =>
        let methodName := (kv.1.splitOn ".").getD 1 ""
        match (alistGet w.injections kv.1).bind (fun l => l.head?) with
        | some p => heapSet h p.target.oid methodName kv.2
        | none => h)
      w.heap
    { heap := heap1, injections := [], originalMethods := [] }

/-- `InjectionHooks.getInjections` (part_007 lines 170-173). -/
def getInjections (w : World) (target : Obj) (method : String) :
    List InjPointS :=
  (alistGet w.injections (getInjectionKey target method)).getD []

/-- `InjectionHooks.hasInjections` (part_007 lines 175-178). -/
def hasInjections (w : World) (target : Obj) (method : String) : Bool :=
  match alistGet w.injections (getInjectionKey target method) with
  | some l => decide (l.length > 0)
  | none => false

end InjectionHooks

namespace InjectionRegistry

/-- The static `registry` map of `InjectionRegistry`: class name to an
insertion-ordered map from instance id to object. -/
structure RegState : Type where
  registry : List (String × List (String × Obj))
deriving DecidableEq, Repr

/-- `InjectionRegistry.register` (InjectionRegistry.ts lines 11-18): creates
the class map on demand, then `set`s the instance under `id`. -/
def register (r : RegState) (inst : Obj) (id : String) : RegState :=
  let className := inst.className
  let classMap := (alistGet r.registry className).getD []
  { registry := alistSet r.registry className (alistSet classMap id inst) }

/-- `InjectionRegistry.getInstance` (lines 31-33): `... || null`. -/
def getInstance (r : RegState) (className : String) (id : String) : Option Obj :=
  alistGet ((alistGet r.registry className).getD []) id

/-- `InjectionRegistry.getInstances` (lines 35-37): the class map's values in
insertion order. -/
def getInstances (r : RegState) (className : String) : List Obj :=
  ((alistGet r.registry className).getD []).map (fun p => p.2)

end InjectionRegistry

/-! ## The synthesized dispatcher (`wrapMethod`'s closure `wrapped`)

Callbacks are deep-embedded programs over a mutable state `σ`, a thrown-error
type `ε` and a result type `ρ`; `α` is the type of call arguments. -/

/-- The data fields of the `InjectionContext` handed to a callback (`target`
is the receiver's identity; `proceed`, being a function, is part of the
callback semantics `CbAct` instead). -/
structure CtxData (α ρ : Type) : Type where
  target : Nat
  method : String
  args : List α
  result : Option ρ := none

/-- Deep embedding of one callback body: finish normally or by throwing
(`ret`), update the shared state (`modify`), branch on the shared state
(`query`), or call `ctx.proceed()` and continue on its outcome
(`proceedThen`; the continuation receiving `Except.error` and not returning
`Except.ok` models a callback that lets the error propagate). -/
inductive CbAct (σ ε ρ : Type) : Type where
  | ret : Except ε ρ → CbAct σ ε ρ
  | modify : (σ → σ) → CbAct σ ε ρ → CbAct σ ε ρ
  | query : (σ → CbAct σ ε ρ) → CbAct σ ε ρ
  | proceedThen : (Except ε ρ → CbAct σ ε ρ) → CbAct σ ε ρ

/-- A JavaScript callback: reference identity plus behaviour (a `CbAct`
program chosen from the context it receives). -/
structure Callback (σ ε ρ α : Type) : Type where
  id : Nat
  act : CtxData α ρ → CbAct σ ε ρ

/-- An `InjectionPoint` as the dispatcher sees it. -/
structure InjPoint (σ ε ρ α : Type) : Type where
  target : Nat
  method : String
  callback : Callback σ ε ρ α
  type : IKind
  priority : Int

/-- Chronological events observed during one dispatch: a callback or the
original starting to run, and an error being caught and logged by the
engine (`Logger.error`). -/
inductive DEvent (α ε : Type) : Type where
  | beforeRun : Nat → DEvent α ε
  | aroundRun : Nat → List α → DEvent α ε
  | originalRun : List α → DEvent α ε
  | afterRun : Nat → DEvent α ε
  | errorLogged : IKind → ε → DEvent α ε
deriving DecidableEq, Repr

/-- Run a callback program.  `proceed` is the semantics of `ctx.proceed()`
(it may emit trace events of the inner chain links it triggers). -/
def runCb {σ ε ρ α : Type}
    (proceed : σ → Except ε ρ × σ × List (DEvent α ε)) :
    CbAct σ ε ρ → σ → Except ε ρ × σ × List (DEvent α ε)
  | CbAct.ret v, s => (v, s, [])
  | CbAct.modify f k, s => runCb proceed k (f s)
  | CbAct.query k, s => runCb proceed (k s) s
  | CbAct.proceedThen k, s =>
    let r1 := proceed s
    let r2 := runCb proceed (k r1.1) r1.2.1
    (r2.1, r2.2.1, r1.2.2 ++ r2.2.2)

/-- `ctx.proceed` when the context carries none (`before`/`after`
callbacks): calling `undefined` throws a `TypeError`, modelled by the
designated error `tyErr`. -/
def noProceedF {σ ε ρ α : Type} (tyErr : ε) :
    σ → Except ε ρ × σ × List (DEvent α ε) :=
  fun s => (Except.error tyErr, s, [])

/-- A link of the around chain: a function of the forwarded arguments
(`chainArgs`), as in the source's `(...chainArgs) => ...`. -/
abbrev Link (σ ε ρ α : Type) : Type :=
  List α → σ → Except ε ρ × σ × List (DEvent α ε)

/-- The innermost chain link, `original.bind(this)`. -/
def originalLink {σ ε ρ α : Type}
    (original : List α → σ → Except ε ρ × σ) : Link σ ε ρ α :=
  fun chainArgs s =>
    let r := original chainArgs s
    (r.1, r.2, [DEvent.originalRun chainArgs])

/-- One step of `aroundInjections.reduce(...)` (part_007 lines 90-105): wrap
`next` in a link that runs the around callback with
`proceed = () => next.apply(this, chainArgs)` under `try`; on a throw the
engine logs the error and falls back to `next.apply(this, chainArgs)`. -/
def chainStep {σ ε ρ α : Type} (thisId : Nat) (method : String)
    (next : Link σ ε ρ α) (injection : InjPoint σ ε ρ α) : Link σ ε ρ α :=
  fun chainArgs s =>
    let r := runCb (fun s1 => next chainArgs s1)
      (injection.callback.act
        { target := thisId, method := method, args := chainArgs }) s
    match r.1 with
    | Except.ok v =>
      (Except.ok v, r.2.1, DEvent.aroundRun injection.callback.id chainArgs :: r.2.2)
    | Except.error e =>
      let r2 := next chainArgs r.2.1
      (r2.1, r2.2.1,
        DEvent.aroundRun injection.callback.id chainArgs ::
          (r.2.2 ++ DEvent.errorLogged IKind.around e :: r2.2.2))

/-- One iteration of the `before` loop (part_007 lines 75-82): the callback
runs under `try`; a thrown error is logged and the loop continues. -/
def beforeStep {σ ε ρ α : Type} (thisId : Nat) (method : String)
    (args : List α) (tyErr : ε) (injection : InjPoint σ ε ρ α) (s : σ) :
    σ × List (DEvent α ε) :=
  let r := runCb (noProceedF tyErr)
    (injection.callback.act
      { target := thisId, method := method, args := args }) s
  (r.2.1, DEvent.beforeRun injection.callback.id ::
    (r.2.2 ++ match r.1 with
      | Except.ok _ => []
      | Except.error e => [DEvent.errorLogged IKind.before e]))

/-- The `before` loop. -/
def beforePhase {σ ε ρ α : Type} (thisId : Nat) (method : String)
    (args : List α) (tyErr : ε) (pts : List (InjPoint σ ε ρ α)) (s : σ) :
    σ × List (DEvent α ε) :=
  pts.foldl
    (fun acc injection =>
      let r := beforeStep thisId method args tyErr injection acc.1
      (r.1, acc.2 ++ r.2))
    (s, [])

/-- One iteration of the `after` loop (part_007 lines 110-116): like
`before`, with the computed `result` in the context. -/
def afterStep {σ ε ρ α : Type} (thisId : Nat) (method : String)
    (args : List α) (tyErr : ε) (result : ρ) (injection : InjPoint σ ε ρ α)
    (s : σ) : σ × List (DEvent α ε) :=
  let r := runCb (noProceedF tyErr)
    (injection.callback.act
      { target := thisId, method := method, args := args,
        result := some result }) s
  (r.2.1, DEvent.afterRun injection.callback.id ::
    (r.2.2 ++ match r.1 with
      | Except.ok _ => []
      | Except.error e => [DEvent.errorLogged IKind.after e]))

/-- The `after` loop. -/
def afterPhase {σ ε ρ α : Type} (thisId : Nat) (method : String)
    (args : List α) (tyErr : ε) (result : ρ)
    (pts : List (InjPoint σ ε ρ α)) (s : σ) : σ × List (DEvent α ε) :=
  pts.foldl
    (fun acc injection =>
      let r := afterStep thisId method args tyErr result injection acc.1
      (r.1, acc.2 ++ r.2))
    (s, [])

/-- One invocation of the synthesized dispatcher `wrapped` (part_007 lines
70-120) with the key's current interception list, the captured original,
the receiver identity and the call arguments.  Returns the call's outcome
(a value or the propagated error), the final state and the event trace.
If the around chain (or the bare original) throws, the `after` loop does
not run and the error propagates to the caller. -/
def wrappedCall {σ ε ρ α : Type} (injections : List (InjPoint σ ε ρ α))
    (original : List α → σ → Except ε ρ × σ) (tyErr : ε) (thisId : Nat)
    (method : String) (args : List α) (s : σ) :
    Except ε ρ × σ × List (DEvent α ε) :=
  let beforeInjections := injections.filter (fun i => i.type == IKind.before)
  let afterInjections := injections.filter (fun i => i.type == IKind.after)
  let aroundInjections := injections.filter (fun i => i.type == IKind.around)
  let b := beforePhase thisId method args tyErr beforeInjections s
  let core :=
    if aroundInjections.length > 0 then
      let chain := aroundInjections.foldl (chainStep thisId method)
        (originalLink original)
      chain args b.1
    else
      let r := original args b.1
      (r.1, r.2, [DEvent.originalRun args])
  match core.1 with
  | Except.error e => (Except.error e, core.2.1, b.2 ++ core.2.2)
  | Except.ok v =>
    let a := afterPhase thisId method args tyErr v afterInjections core.2.1
    (Except.ok v, a.1, b.2 ++ core.2.2 ++ a.2)

/-- The interception list as built by a sequence of `inject` calls on one
key: each call pushes the new point and re-sorts stably by descending
priority (part_007 lines 51-54). -/
def buildInjList {σ ε ρ α : Type} (pts : List (InjPoint σ ε ρ α)) :
    List (InjPoint σ ε ρ α) :=
  pts.foldl (fun acc p => sortInj (fun q => q.priority) (acc ++ [p])) []

/-! ### Trace observations -/

/-- Ids of `before` callbacks in the order they started running. -/
def beforeRunIds {α ε : Type} : List (DEvent α ε) → List Nat
  | [] => []
  | DEvent.beforeRun i :: t => i :: beforeRunIds t
  | _ :: t => beforeRunIds t

/-- Ids of `around` callbacks in the order they started running. -/
def aroundRunIds {α ε : Type} : List (DEvent α ε) → List Nat
  | [] => []
  | DEvent.aroundRun i _ :: t => i :: aroundRunIds t
  | _ :: t => aroundRunIds t

/-- Ids of `after` callbacks in the order they started running. -/
def afterRunIds {α ε : Type} : List (DEvent α ε) → List Nat
  | [] => []
  | DEvent.afterRun i :: t => i :: afterRunIds t
  | _ :: t => afterRunIds t

/-- The argument lists of the invocations of the original method, in order;
its length counts how often the original ran. -/
def originalRuns {α ε : Type} : List (DEvent α ε) → List (List α)
  | [] => []
  | DEvent.originalRun a :: t => a :: originalRuns t
  | _ :: t => originalRuns t

/-- Is the event an engine-logged (caught) error? -/
def DEvent.isLogged {α ε : Type} : DEvent α ε → Bool
  | DEvent.errorLogged _ _ => true
  | _ => false

/-- The trace with the engine's error-log entries removed: the pure
record of which callbacks and original invocations ran, in order. -/
def noLog {α ε : Type} : List (DEvent α ε) → List (DEvent α ε)
  | [] => []
  | DEvent.errorLogged _ _ :: t => noLog t
  | e :: t => e :: noLog t

/-- The effect a callback body has on the shared state when run with no
`proceed` in its context (as `before`/`after` callbacks are), whether it
returns or throws. -/
def befEffect {σ ε ρ α : Type} (tyErr : ε)
    (f : CtxData α ρ → CbAct σ ε ρ) : CtxData α ρ → σ → σ :=
  fun ctx s =>
    ((runCb (α := α) (noProceedF tyErr) (f ctx) s).2.1)

/-- The callback program never calls `proceed()` and always finishes by
returning a value (never by throwing). -/
def ShortCircuits {σ ε ρ : Type} : CbAct σ ε ρ → Prop
  | CbAct.ret v => v.isOk
  | CbAct.modify _ k => ShortCircuits k
  | CbAct.query k => ∀ s, ShortCircuits (k s)
  | CbAct.proceedThen _ => False

/-- A link only emits around-callback starts, original-method starts and
around-level error logs (invariant of every link of the built chain). -/
def ChainEvents {σ ε ρ α : Type} (L : Link σ ε ρ α) : Prop :=
  ∀ (args : List α) (s : σ), ∀ e ∈ (L args s).2.2,
    (∃ i a, e = DEvent.aroundRun i a) ∨ (∃ a, e = DEvent.originalRun a) ∨
      (∃ er, e = DEvent.errorLogged IKind.around er)

/-- A live object of class `C` (identity 0), owning method `m`. -/
def objA : Obj := ⟨0, "C"⟩

/-- A second, distinct live object of the same class `C` (identity 1). -/
def objB : Obj := ⟨1, "C"⟩

/-- World in which `objA` has method `m` (function 5) and `objB` has no
member `m` at all. -/
def demoW0 : World :=
  { heap := [((0, "m"), SlotVal.fn 5)], injections := [], originalMethods := [] }

/-- `demoW0` after `inject(objA, "m", cb 1, 'before', 10)`. -/
def demoW1 : World :=
  { heap := [((0, "m"), SlotVal.wrappedFn "C.m")],
    injections := [("C.m", [⟨objA, "m", 1, IKind.before, 10⟩])],
    originalMethods := [("C.m", SlotVal.fn 5)] }

/-- `demoW1` after `inject(objB, "m", cb 2, 'before', 10)` — which succeeds
even though `objB` has no member `m`. -/
def demoW2 : World :=
  { heap := [((0, "m"), SlotVal.wrappedFn "C.m")],
    injections := [("C.m", [⟨objA, "m", 1, IKind.before, 10⟩,
      ⟨objB, "m", 2, IKind.before, 10⟩])],
    originalMethods := [("C.m", SlotVal.fn 5)] }

/-- World with two live objects of class `C`, each with its own method `m`
(functions 5 and 6 respectively). -/
def demoV0 : World :=
  { heap := [((0, "m"), SlotVal.fn 5), ((1, "m"), SlotVal.fn 6)],
    injections := [], originalMethods := [] }

/-- `demoV0` after `inject(objA, "m", cb 1, 'before', 10)`: only `objA`'s
slot was replaced, but the injection list and captured original live under
the class-level key `"C.m"`. -/
def demoV1 : World :=
  { heap := [((0, "m"), SlotVal.wrappedFn "C.m"), ((1, "m"), SlotVal.fn 6)],
    injections := [("C.m", [⟨objA, "m", 1, IKind.before, 10⟩])],
    originalMethods := [("C.m", SlotVal.fn 5)] }

/-- A pass-through around callback body — `ctx => ctx.proceed()` — which
forwards `proceed()`'s value and lets a `proceed()` throw propagate. -/
def passAct {σ ε ρ : Type} : CbAct σ ε ρ := CbAct.proceedThen CbAct.ret

/-- Around point, priority 20, callback reference 1, pass-through. -/
def aroundP20 : InjPoint Nat Nat Nat Nat :=
  { target := 0, method := "m", callback := ⟨1, fun _ => passAct⟩,
    type := IKind.around, priority := 20 }

/-- Around point, priority 10, callback reference 2, pass-through. -/
def aroundP10 : InjPoint Nat Nat Nat Nat :=
  { target := 0, method := "m", callback := ⟨2, fun _ => passAct⟩,
    type := IKind.around, priority := 10 }

/-- An original method that returns 7 and does not touch the state. -/
def origOk : List Nat → Nat → Except Nat Nat × Nat :=
  fun _ s => (Except.ok 7, s)

/-- An original method that always throws error 7, counting its own
invocations in the state. -/
def origThrow : List Nat → Nat → Except Nat Nat × Nat :=
  fun _ s => (Except.error 7, s + 1)

/-- A `before` interception point with callback reference `id0` and body
`act`. -/
def mkBefore {σ ε ρ α : Type} (tgt : Nat) (mthd : String) (id0 : Nat)
    (act : CtxData α ρ → CbAct σ ε ρ) (pr : Int) : InjPoint σ ε ρ α :=
  { target := tgt, method := mthd, callback := ⟨id0, act⟩,
    type := IKind.before, priority := pr }

/-- A concrete `before` callback body: increment the state, then throw
error 3. -/
def befThrow : CtxData Nat Nat → CbAct Nat Nat Nat :=
  fun _ => CbAct.modify (fun n => n + 1) (CbAct.ret (Except.error 3))

/-- The non-throwing twin of `befThrow`: same state effect, returns 0. -/
def befNoThrow : CtxData Nat Nat → CbAct Nat Nat Nat :=
  fun _ => CbAct.modify (fun n => n + 1) (CbAct.ret (Except.ok 0))

/-- An around callback that never calls `proceed()`: returns 42 outright. -/
def scAround : InjPoint Nat Nat Nat Nat :=
  { target := 0, method := "m", callback := ⟨9, fun _ => CbAct.ret (Except.ok 42)⟩,
    type := IKind.around, priority := 10 }

/-! ## Helper lemmas -/

theorem alistGet_set_self {κ ν : Type} [DecidableEq κ] (l : List (κ × ν))
    (k : κ) (v : ν) : alistGet (alistSet l k v) k = some v := by
  induction l with
  | nil => simp [alistGet, alistSet]
  | cons p l ih =>
    by_cases hp : p.1 = k
    · simp [alistGet, alistSet, hp]
    · simpa [alistGet, alistSet, hp] using ih

theorem orderedInsert_filter_prio {β : Type} (prio : β → Int) (q : Int)
    (a : β) (l : List β) :
    (l.orderedInsert (fun x y => prio y ≤ prio x) a).filter
        (fun x => prio x == q) =
      ((a :: l).filter (fun x => prio x == q)) := by
  induction l with
  | nil => rfl
  | cons b l ih =>
    by_cases hr : prio b ≤ prio a
    · simp [List.orderedInsert, hr]
    · have hr2 : prio a < prio b := lt_of_not_le hr
      rw [List.orderedInsert, if_neg hr]
      by_cases hq : prio a = q
      · have hbq : ¬ prio b = q := by omega
        simp [List.filter_cons, hq, hbq, ih]
      · simp [List.filter_cons, hq, ih]

theorem sortInj_filter_prio {β : Type} (prio : β → Int) (q : Int)
    (l : List β) :
    (sortInj prio l).filter (fun x => prio x == q) =
      l.filter (fun x => prio x == q) := by
  induction l with
  | nil => rfl
  | cons a l ih =>
    show ((sortInj prio l).orderedInsert (fun x y => prio y ≤ prio x) a).filter
        (fun x => prio x == q) = _
    rw [orderedInsert_filter_prio]
    by_cases hq : prio a = q
    · simp [List.filter_cons, hq, ih]
    · simp [List.filter_cons, hq, ih]

theorem sortInj_sorted {β : Type} (prio : β → Int) (l : List β) :
    (sortInj prio l).Pairwise (fun a b => prio b ≤ prio a) := by
  haveI : IsTotal β (fun a b => prio b ≤ prio a) :=
    ⟨fun a b => le_total (prio b) (prio a)⟩
  haveI : IsTrans β (fun a b => prio b ≤ prio a) :=
    ⟨fun a b c h1 h2 => le_trans h2 h1⟩
  exact List.sorted_insertionSort _ l

theorem alistDelete_set_of_none {κ ν : Type} [DecidableEq κ]
    (l : List (κ × ν)) (k : κ) (v : ν) (h : alistGet l k = none) :
    alistDelete (alistSet l k v) k = l := by
  induction l with
  | nil => simp [alistGet, alistSet, alistDelete]
  | cons p l ih =>
    by_cases hp : p.1 = k
    · simp [alistGet, hp] at h
    · simp only [alistGet, if_neg hp] at h
      simp [alistSet, alistDelete, hp, ih h]

theorem alistGet_set_ne {κ ν : Type} [DecidableEq κ] (l : List (κ × ν))
    (k k' : κ) (v : ν) (h : k' ≠ k) :
    alistGet (alistSet l k v) k' = alistGet l k' := by
  have hkk' : ¬ k = k' := fun h2 => h h2.symm
  induction l with
  | nil => simp [alistGet, alistSet, hkk']
  | cons p l ih =>
    by_cases hp : p.1 = k
    · have hpk' : ¬ p.1 = k' := by rw [hp]; exact hkk'
      simp [alistGet, alistSet, hp, hkk', hpk']
    · by_cases hp' : p.1 = k'
      · simp [alistGet, alistSet, hp, hp', h]
      · simpa [alistGet, alistSet, hp, hp'] using ih

theorem alistGet_delete_ne {κ ν : Type} [DecidableEq κ] (l : List (κ × ν))
    (k k' : κ) (h : k' ≠ k) :
    alistGet (alistDelete l k) k' = alistGet l k' := by
  induction l with
  | nil => simp [alistDelete]
  | cons p l ih =>
    by_cases hp : p.1 = k
    · have hpk' : ¬ p.1 = k' := by rw [hp]; exact fun h2 => h h2.symm
      have hkk' : ¬ k = k' := fun h2 => h h2.symm
      simp [alistGet, alistDelete, hp, hpk', hkk']
    · by_cases hp' : p.1 = k'
      · simp [alistGet, alistDelete, hp, hp', h]
      · simpa [alistGet, alistDelete, hp, hp'] using ih

theorem alistSet_set {κ ν : Type} [DecidableEq κ] :
    ∀ (l : List (κ × ν)) (k : κ) (v v2 : ν),
      alistSet (alistSet l k v) k v2 = alistSet l k v2
  | [], k, v, v2 => by simp [alistSet]
  | p :: l, k, v, v2 => by
    by_cases hp : p.1 = k
    · simp [alistSet, hp]
    · simp [alistSet, hp, alistSet_set l k v v2]

theorem alistSet_get_eq {κ ν : Type} [DecidableEq κ] :
    ∀ (l : List (κ × ν)) (k : κ) (v : ν), alistGet l k = some v →
      alistSet l k v = l
  | [], _, _, h => by simp [alistGet] at h
  | p :: l, k, v, h => by
    by_cases hp : p.1 = k
    · simp only [alistGet, if_pos hp] at h
      injection h with h2
      subst h2
      subst hp
      simp [alistSet]
    · simp only [alistGet, if_neg hp] at h
      simp [alistSet, hp, alistSet_get_eq l k v h]

/-! ### Lemmas about `runCb` -/

/-- A callback run with no usable `proceed` emits no trace events (only the
engine and the chain links emit). -/
theorem runCb_noProceed_trace {σ ε ρ α : Type} (tyErr : ε) :
    ∀ (a : CbAct σ ε ρ) (s : σ),
      (runCb (α := α) (noProceedF tyErr) a s).2.2 = ([] : List (DEvent α ε))
  | CbAct.ret _, _ => rfl
  | CbAct.modify f k, s => runCb_noProceed_trace tyErr k (f s)
  | CbAct.query k, s => runCb_noProceed_trace tyErr (k s) s
  | CbAct.proceedThen k, s => by
    simp [runCb, noProceedF, runCb_noProceed_trace tyErr (k (Except.error tyErr)) s]

/-- Every trace event of a callback run comes from `proceed`. -/
theorem runCb_trace_mem {σ ε ρ α : Type} (P : DEvent α ε → Prop)
    (proceed : σ → Except ε ρ × σ × List (DEvent α ε))
    (hpr : ∀ s e, e ∈ (proceed s).2.2 → P e) :
    ∀ (a : CbAct σ ε ρ) (s : σ) (e : DEvent α ε),
      e ∈ (runCb proceed a s).2.2 → P e
  | CbAct.ret _, _, _, h => absurd h (by simp [runCb])
  | CbAct.modify f k, s, e, h => runCb_trace_mem P proceed hpr k (f s) e h
  | CbAct.query k, s, e, h => runCb_trace_mem P proceed hpr (k s) s e h
  | CbAct.proceedThen k, s, e, h => by
    simp only [runCb, List.mem_append] at h
    rcases h with h | h
    · exact hpr s e h
    · exact runCb_trace_mem P proceed hpr (k (proceed s).1) (proceed s).2.1 e h

/-- A short-circuiting callback ignores `proceed` entirely: it yields a
value, a state, and an empty trace, uniformly in `proceed`. -/
theorem runCb_shortCircuits {σ ε ρ α : Type} :
    ∀ (a : CbAct σ ε ρ), ShortCircuits a → ∀ (s : σ), ∃ v s1,
      ∀ (proceed : σ → Except ε ρ × σ × List (DEvent α ε)),
        runCb proceed a s = (Except.ok v, s1, [])
  | CbAct.ret (Except.ok v), _, s => ⟨v, s, fun _ => rfl⟩
  | CbAct.ret (Except.error _), h, _ =>
    absurd h (by simp [ShortCircuits, Except.isOk, Except.toBool])
  | CbAct.modify f k, h, s => runCb_shortCircuits k h (f s)
  | CbAct.query k, h, s => runCb_shortCircuits (k s) (h s) s
  | CbAct.proceedThen _, h, _ => absurd h (by simp [ShortCircuits])

/-! ### Lemmas about the dispatch phases -/

/-- Normalizing the trace accumulator of a phase fold. -/
theorem phase_foldl_acc {β σ δ : Type} (step : β → σ → σ × List δ) :
    ∀ (pts : List β) (s : σ) (t0 : List δ),
      pts.foldl (fun acc p => ((step p acc.1).1, acc.2 ++ (step p acc.1).2))
          (s, t0) =
        ((pts.foldl (fun acc p => ((step p acc.1).1, acc.2 ++ (step p acc.1).2))
            (s, [])).1,
          t0 ++ (pts.foldl
            (fun acc p => ((step p acc.1).1, acc.2 ++ (step p acc.1).2))
            (s, [])).2)
  | [], s, t0 => by simp
  | p :: pts, s, t0 => by
    simp only [List.foldl_cons]
    rw [phase_foldl_acc step pts (step p s).1 (t0 ++ (step p s).2),
      phase_foldl_acc step pts (step p s).1 ([] ++ (step p s).2)]
    simp

theorem beforePhase_cons {σ ε ρ α : Type} (thisId : Nat) (method : String)
    (args : List α) (tyErr : ε) (p : InjPoint σ ε ρ α)
    (pts : List (InjPoint σ ε ρ α)) (s : σ) :
    beforePhase thisId method args tyErr (p :: pts) s =
      ((beforePhase thisId method args tyErr pts
          (beforeStep thisId method args tyErr p s).1).1,
        (beforeStep thisId method args tyErr p s).2 ++
          (beforePhase thisId method args tyErr pts
            (beforeStep thisId method args tyErr p s).1).2) := by
  show (p :: pts).foldl _ (s, []) = _
  rw [List.foldl_cons]
  exact Eq.trans
    (phase_foldl_acc (beforeStep thisId method args tyErr) pts _ _)
    (by simp [beforePhase])

theorem afterPhase_cons {σ ε ρ α : Type} (thisId : Nat) (method : String)
    (args : List α) (tyErr : ε) (result : ρ) (p : InjPoint σ ε ρ α)
    (pts : List (InjPoint σ ε ρ α)) (s : σ) :
    afterPhase thisId method args tyErr result (p :: pts) s =
      ((afterPhase thisId method args tyErr result pts
          (afterStep thisId method args tyErr result p s).1).1,
        (afterStep thisId method args tyErr result p s).2 ++
          (afterPhase thisId method args tyErr result pts
            (afterStep thisId method args tyErr result p s).1).2) := by
  show (p :: pts).foldl _ (s, []) = _
  rw [List.foldl_cons]
  exact Eq.trans
    (phase_foldl_acc (afterStep thisId method args tyErr result) pts _ _)
    (by simp [afterPhase])

theorem beforeStep_trace {σ ε ρ α : Type} (thisId : Nat) (method : String)
    (args : List α) (tyErr : ε) (p : InjPoint σ ε ρ α) (s : σ) :
    ∃ t, (beforeStep thisId method args tyErr p s).2 =
        DEvent.beforeRun p.callback.id :: t ∧
      ∀ e ∈ t, ∃ er, e = DEvent.errorLogged IKind.before er := by
  show ∃ t, DEvent.beforeRun p.callback.id ::
      ((runCb (noProceedF tyErr) (p.callback.act
          { target := thisId, method := method, args := args }) s).2.2 ++ _) =
        _ ∧ _
  rw [runCb_noProceed_trace]
  cases (runCb (α := α) (noProceedF tyErr)
      (p.callback.act { target := thisId, method := method, args := args })
      s).1 with
  | ok v => exact ⟨[], rfl, by simp⟩
  | error e => exact ⟨[DEvent.errorLogged IKind.before e], rfl, by simp⟩

theorem afterStep_trace {σ ε ρ α : Type} (thisId : Nat) (method : String)
    (args : List α) (tyErr : ε) (result : ρ) (p : InjPoint σ ε ρ α) (s : σ) :
    ∃ t, (afterStep thisId method args tyErr result p s).2 =
        DEvent.afterRun p.callback.id :: t ∧
      ∀ e ∈ t, ∃ er, e = DEvent.errorLogged IKind.after er := by
  show ∃ t, DEvent.afterRun p.callback.id ::
      ((runCb (noProceedF tyErr) (p.callback.act
          (CtxData.mk thisId method args (some result))) s).2.2 ++ _) = _ ∧ _
  rw [runCb_noProceed_trace]
  cases (runCb (α := α) (noProceedF tyErr)
      (p.callback.act (CtxData.mk thisId method args (some result))) s).1 with
  | ok v => exact ⟨[], rfl, by simp⟩
  | error e => exact ⟨[DEvent.errorLogged IKind.after e], rfl, by simp⟩

theorem beforePhase_trace_mem {σ ε ρ α : Type} (thisId : Nat) (method : String)
    (args : List α) (tyErr : ε) :
    ∀ (pts : List (InjPoint σ ε ρ α)) (s : σ),
      ∀ e ∈ (beforePhase thisId method args tyErr pts s).2,
        (∃ i, e = DEvent.beforeRun i) ∨
          (∃ er, e = DEvent.errorLogged IKind.before er)
  | [], _, e, h => absurd h (by simp [beforePhase])
  | p :: pts, s, e, h => by
    rw [beforePhase_cons] at h
    rcases List.mem_append.mp h with h1 | h2
    · rcases beforeStep_trace thisId method args tyErr p s with ⟨t, ht, hall⟩
      rw [ht] at h1
      rcases List.mem_cons.mp h1 with rfl | h1
      · exact Or.inl ⟨p.callback.id, rfl⟩
      · exact Or.inr (hall e h1)
    · exact beforePhase_trace_mem thisId method args tyErr pts _ e h2

theorem afterPhase_trace_mem {σ ε ρ α : Type} (thisId : Nat) (method : String)
    (args : List α) (tyErr : ε) (result : ρ) :
    ∀ (pts : List (InjPoint σ ε ρ α)) (s : σ),
      ∀ e ∈ (afterPhase thisId method args tyErr result pts s).2,
        (∃ i, e = DEvent.afterRun i) ∨
          (∃ er, e = DEvent.errorLogged IKind.after er)
  | [], _, e, h => absurd h (by simp [afterPhase])
  | p :: pts, s, e, h => by
    rw [afterPhase_cons] at h
    rcases List.mem_append.mp h with h1 | h2
    · rcases afterStep_trace thisId method args tyErr result p s with ⟨t, ht, hall⟩
      rw [ht] at h1
      rcases List.mem_cons.mp h1 with rfl | h1
      · exact Or.inl ⟨p.callback.id, rfl⟩
      · exact Or.inr (hall e h1)
    · exact afterPhase_trace_mem thisId method args tyErr result pts _ e h2

theorem beforeRunIds_append {α ε : Type} (l1 l2 : List (DEvent α ε)) :
    beforeRunIds (l1 ++ l2) = beforeRunIds l1 ++ beforeRunIds l2 := by
  induction l1 with
  | nil => rfl
  | cons e t ih => cases e <;> simp [beforeRunIds, ih]

theorem aroundRunIds_append {α ε : Type} (l1 l2 : List (DEvent α ε)) :
    aroundRunIds (l1 ++ l2) = aroundRunIds l1 ++ aroundRunIds l2 := by
  induction l1 with
  | nil => rfl
  | cons e t ih => cases e <;> simp [aroundRunIds, ih]

theorem afterRunIds_append {α ε : Type} (l1 l2 : List (DEvent α ε)) :
    afterRunIds (l1 ++ l2) = afterRunIds l1 ++ afterRunIds l2 := by
  induction l1 with
  | nil => rfl
  | cons e t ih => cases e <;> simp [afterRunIds, ih]

theorem originalRuns_append {α ε : Type} (l1 l2 : List (DEvent α ε)) :
    originalRuns (l1 ++ l2) = originalRuns l1 ++ originalRuns l2 := by
  induction l1 with
  | nil => rfl
  | cons e t ih => cases e <;> simp [originalRuns, ih]

theorem noLog_append {α ε : Type} (l1 l2 : List (DEvent α ε)) :
    noLog (l1 ++ l2) = noLog l1 ++ noLog l2 := by
  induction l1 with
  | nil => rfl
  | cons e t ih => cases e <;> simp [noLog, ih]

theorem beforeRunIds_eq_nil {α ε : Type} :
    ∀ (t : List (DEvent α ε)), (∀ e ∈ t, ∀ i, e ≠ DEvent.beforeRun i) →
      beforeRunIds t = []
  | [], _ => rfl
  | DEvent.beforeRun i :: _, h => absurd rfl (h _ (by simp) i)
  | DEvent.aroundRun _ _ :: t, h =>
    beforeRunIds_eq_nil t (fun e he => h e (by simp [he]))
  | DEvent.originalRun _ :: t, h =>
    beforeRunIds_eq_nil t (fun e he => h e (by simp [he]))
  | DEvent.afterRun _ :: t, h =>
    beforeRunIds_eq_nil t (fun e he => h e (by simp [he]))
  | DEvent.errorLogged _ _ :: t, h =>
    beforeRunIds_eq_nil t (fun e he => h e (by simp [he]))

theorem aroundRunIds_eq_nil {α ε : Type} :
    ∀ (t : List (DEvent α ε)), (∀ e ∈ t, ∀ i a, e ≠ DEvent.aroundRun i a) →
      aroundRunIds t = []
  | [], _ => rfl
  | DEvent.aroundRun i a :: _, h => absurd rfl (h _ (by simp) i a)
  | DEvent.beforeRun _ :: t, h =>
    aroundRunIds_eq_nil t (fun e he => h e (by simp [he]))
  | DEvent.originalRun _ :: t, h =>
    aroundRunIds_eq_nil t (fun e he => h e (by simp [he]))
  | DEvent.afterRun _ :: t, h =>
    aroundRunIds_eq_nil t (fun e he => h e (by simp [he]))
  | DEvent.errorLogged _ _ :: t, h =>
    aroundRunIds_eq_nil t (fun e he => h e (by simp [he]))

theorem afterRunIds_eq_nil {α ε : Type} :
    ∀ (t : List (DEvent α ε)), (∀ e ∈ t, ∀ i, e ≠ DEvent.afterRun i) →
      afterRunIds t = []
  | [], _ => rfl
  | DEvent.afterRun i :: _, h => absurd rfl (h _ (by simp) i)
  | DEvent.beforeRun _ :: t, h =>
    afterRunIds_eq_nil t (fun e he => h e (by simp [he]))
  | DEvent.aroundRun _ _ :: t, h =>
    afterRunIds_eq_nil t (fun e he => h e (by simp [he]))
  | DEvent.originalRun _ :: t, h =>
    afterRunIds_eq_nil t (fun e he => h e (by simp [he]))
  | DEvent.errorLogged _ _ :: t, h =>
    afterRunIds_eq_nil t (fun e he => h e (by simp [he]))

theorem originalRuns_eq_nil {α ε : Type} :
    ∀ (t : List (DEvent α ε)), (∀ e ∈ t, ∀ a, e ≠ DEvent.originalRun a) →
      originalRuns t = []
  | [], _ => rfl
  | DEvent.originalRun a :: _, h => absurd rfl (h _ (by simp) a)
  | DEvent.beforeRun _ :: t, h =>
    originalRuns_eq_nil t (fun e he => h e (by simp [he]))
  | DEvent.aroundRun _ _ :: t, h =>
    originalRuns_eq_nil t (fun e he => h e (by simp [he]))
  | DEvent.afterRun _ :: t, h =>
    originalRuns_eq_nil t (fun e he => h e (by simp [he]))
  | DEvent.errorLogged _ _ :: t, h =>
    originalRuns_eq_nil t (fun e he => h e (by simp [he]))

theorem beforeRunIds_beforePhase {σ ε ρ α : Type} (thisId : Nat)
    (method : String) (args : List α) (tyErr : ε) :
    ∀ (pts : List (InjPoint σ ε ρ α)) (s : σ),
      beforeRunIds (beforePhase thisId method args tyErr pts s).2 =
        pts.map (fun p => p.callback.id)
  | [], _ => rfl
  | p :: pts, s => by
    rw [beforePhase_cons]
    rcases beforeStep_trace thisId method args tyErr p s with ⟨t, ht, hall⟩
    rw [beforeRunIds_append, ht]
    have htnil : beforeRunIds t = [] :=
      beforeRunIds_eq_nil t (fun e he i => by
        rcases hall e he with ⟨er, rfl⟩
        simp)
    show p.callback.id :: beforeRunIds t ++ _ = _
    rw [htnil,
      beforeRunIds_beforePhase thisId method args tyErr pts
        (beforeStep thisId method args tyErr p s).1]
    rfl

theorem noLog_beforePhase {σ ε ρ α : Type} (thisId : Nat)
    (method : String) (args : List α) (tyErr : ε) :
    ∀ (pts : List (InjPoint σ ε ρ α)) (s : σ),
      noLog (beforePhase thisId method args tyErr pts s).2 =
        pts.map (fun p => DEvent.beforeRun p.callback.id)
  | [], _ => rfl
  | p :: pts, s => by
    rw [beforePhase_cons]
    rcases beforeStep_trace thisId method args tyErr p s with ⟨t, ht, hall⟩
    rw [noLog_append, ht]
    have htnil : noLog t = [] := by
      clear ht
      induction t with
      | nil => rfl
      | cons e t2 ih2 =>
        rcases hall e (by simp) with ⟨er, rfl⟩
        exact ih2 (fun e2 he2 => hall e2 (by simp [he2]))
    show DEvent.beforeRun p.callback.id :: noLog t ++ _ = _
    rw [htnil,
      noLog_beforePhase thisId method args tyErr pts
        (beforeStep thisId method args tyErr p s).1]
    rfl

theorem afterRunIds_afterPhase {σ ε ρ α : Type} (thisId : Nat)
    (method : String) (args : List α) (tyErr : ε) (result : ρ) :
    ∀ (pts : List (InjPoint σ ε ρ α)) (s : σ),
      afterRunIds (afterPhase thisId method args tyErr result pts s).2 =
        pts.map (fun p => p.callback.id)
  | [], _ => rfl
  | p :: pts, s => by
    rw [afterPhase_cons]
    rcases afterStep_trace thisId method args tyErr result p s with ⟨t, ht, hall⟩
    rw [afterRunIds_append, ht]
    have htnil : afterRunIds t = [] :=
      afterRunIds_eq_nil t (fun e he i => by
        rcases hall e he with ⟨er, rfl⟩
        simp)
    show p.callback.id :: afterRunIds t ++ _ = _
    rw [htnil,
      afterRunIds_afterPhase thisId method args tyErr result pts
        (afterStep thisId method args tyErr result p s).1]
    rfl

/-! ### Lemmas about the around chain -/

theorem chainEvents_originalLink {σ ε ρ α : Type}
    (original : List α → σ → Except ε ρ × σ) :
    ChainEvents (originalLink original) := by
  intro args s e he
  simp only [originalLink, List.mem_singleton] at he
  exact Or.inr (Or.inl ⟨args, he⟩)

theorem chainEvents_chainStep {σ ε ρ α : Type} (thisId : Nat) (method : String)
    (next : Link σ ε ρ α) (p : InjPoint σ ε ρ α) (h : ChainEvents next) :
    ChainEvents (chainStep thisId method next p) := by
  intro args s e he
  have hcb : ∀ e ∈ (runCb (fun s1 => next args s1)
      (p.callback.act (CtxData.mk thisId method args none)) s).2.2,
      (∃ i a, e = DEvent.aroundRun i a) ∨ (∃ a, e = DEvent.originalRun a) ∨
        (∃ er, e = DEvent.errorLogged IKind.around er) :=
    fun e2 he2 => runCb_trace_mem _ _ (fun s2 e3 he3 => h args s2 e3 he3) _ s e2 he2
  simp only [chainStep] at he
  split at he
  · rcases List.mem_cons.mp he with rfl | he2
    · exact Or.inl ⟨p.callback.id, args, rfl⟩
    · exact hcb e he2
  · rcases List.mem_cons.mp he with rfl | he2
    · exact Or.inl ⟨p.callback.id, args, rfl⟩
    · rcases List.mem_append.mp he2 with he3 | he4
      · exact hcb e he3
      · rcases List.mem_cons.mp he4 with rfl | he5
        · exact Or.inr (Or.inr ⟨_, rfl⟩)
        · exact h args _ e he5

theorem chainEvents_foldl {σ ε ρ α : Type} (thisId : Nat) (method : String) :
    ∀ (l : List (InjPoint σ ε ρ α)) (base : Link σ ε ρ α),
      ChainEvents base → ChainEvents (l.foldl (chainStep thisId method) base)
  | [], _, hb => hb
  | p :: l, base, hb => by
    rw [List.foldl_cons]
    exact chainEvents_foldl thisId method l _
      (chainEvents_chainStep thisId method base p hb)

theorem chainStep_pass {σ ε ρ α : Type} (thisId : Nat) (method : String)
    (next : Link σ ε ρ α) (p : InjPoint σ ε ρ α) (args : List α) (s : σ)
    (v : ρ) (s1 : σ) (t : List (DEvent α ε))
    (hp : p.callback.act = fun _ => CbAct.proceedThen CbAct.ret)
    (hn : next args s = (Except.ok v, s1, t)) :
    chainStep thisId method next p args s =
      (Except.ok v, s1, DEvent.aroundRun p.callback.id args :: t) := by
  simp [chainStep, hp, runCb, hn]

theorem chainFold_pass {σ ε ρ α : Type} (thisId : Nat) (method : String) :
    ∀ (l : List (InjPoint σ ε ρ α)) (base : Link σ ε ρ α) (args : List α)
      (s : σ) (v : ρ) (s1 : σ) (t : List (DEvent α ε)),
      (∀ p ∈ l, p.callback.act = fun _ => CbAct.proceedThen CbAct.ret) →
      base args s = (Except.ok v, s1, t) →
      (l.foldl (chainStep thisId method) base) args s =
        (Except.ok v, s1,
          (l.reverse.map fun p => DEvent.aroundRun p.callback.id args) ++ t)
  | [], _, args, s, v, s1, t, _, hb => by simpa using hb
  | p :: l, base, args, s, v, s1, t, hall, hb => by
    rw [List.foldl_cons]
    have hstep := chainStep_pass thisId method base p args s v s1 t
      (hall p (by simp)) hb
    have hrec := chainFold_pass thisId method l
      (chainStep thisId method base p) args s v s1 _
      (fun q hq => hall q (by simp [hq])) hstep
    rw [hrec]
    simp

theorem chainStep_sc {σ ε ρ α : Type} (thisId : Nat) (method : String)
    (next : Link σ ε ρ α) (p : InjPoint σ ε ρ α) (args : List α) (s : σ)
    (tyErr : ε)
    (hsc : ShortCircuits (p.callback.act (CtxData.mk thisId method args none))) :
    chainStep thisId method next p args s =
      ((runCb (α := α) (noProceedF tyErr)
          (p.callback.act (CtxData.mk thisId method args none)) s).1,
        (runCb (α := α) (noProceedF tyErr)
          (p.callback.act (CtxData.mk thisId method args none)) s).2.1,
        [DEvent.aroundRun p.callback.id args]) ∧
      ∃ v, (runCb (α := α) (noProceedF tyErr)
          (p.callback.act (CtxData.mk thisId method args none)) s).1 =
        Except.ok v := by
  rcases runCb_shortCircuits (α := α)
    (p.callback.act (CtxData.mk thisId method args none)) hsc s with ⟨v, s1, huni⟩
  refine ⟨?_, ⟨v, by rw [huni]⟩⟩
  rw [huni (noProceedF tyErr)]
  simp [chainStep, huni (fun s2 => next args s2)]

/-! ## Claims -/

/-- C10: calling `clearInjections` with only a target and no method name is
not a per-target clear and not a no-op: the guard `if (target && method)`
fails, so the global branch runs, clearing every injection and restoring
every stored original process-wide, exactly as `clearInjections()` with no
arguments would. -/
theorem clearInjections_target_only_is_global (w : World) (t : Obj) :
    InjectionHooks.clearInjections w (some t) none =
      InjectionHooks.clearInjections w none none ∧
    (InjectionHooks.clearInjections w (some t) none).injections = [] ∧
    (InjectionHooks.clearInjections w (some t) none).originalMethods = [] :=
  ⟨rfl, rfl, rfl⟩

/-- C9: the Registry keeps at most one object per (class name, instance id):
registering `o2` under the same class and id as `o1` silently replaces it —
`getInstance` returns `o2` and `getInstances` has exactly the one entry. -/
theorem registry_register_same_key_replaces (r : InjectionRegistry.RegState)
    (cn id : String) (o1 o2 : Obj)
    (h1 : o1.className = cn) (h2 : o2.className = cn)
    (hfresh : alistGet r.registry cn = none) :
    InjectionRegistry.getInstance
        (InjectionRegistry.register (InjectionRegistry.register r o1 id) o2 id)
        cn id = some o2 ∧
    InjectionRegistry.getInstances
        (InjectionRegistry.register (InjectionRegistry.register r o1 id) o2 id)
        cn = [o2] := by
  have e1 : InjectionRegistry.register r o1 id =
      ⟨alistSet r.registry cn [(id, o1)]⟩ := by
    simp [InjectionRegistry.register, h1, hfresh, alistSet]
  have e2 : InjectionRegistry.register
      (⟨alistSet r.registry cn [(id, o1)]⟩ : InjectionRegistry.RegState) o2 id =
      ⟨alistSet (alistSet r.registry cn [(id, o1)]) cn [(id, o2)]⟩ := by
    simp [InjectionRegistry.register, h2, alistGet_set_self, alistSet]
  rw [e1, e2]
  constructor
  · simp [InjectionRegistry.getInstance, alistGet_set_self, alistGet]
  · simp [InjectionRegistry.getInstances, alistGet_set_self]

/-- Witness for C9 at a concrete registry. -/
theorem registry_register_same_key_replaces_witness :
    (⟨3, "Server"⟩ : Obj).className = "Server" ∧
    (⟨4, "Server"⟩ : Obj).className = "Server" ∧
    alistGet (⟨[]⟩ : InjectionRegistry.RegState).registry "Server" = none ∧
    (InjectionRegistry.getInstance
        (InjectionRegistry.register
          (InjectionRegistry.register ⟨[]⟩ ⟨3, "Server"⟩ "server-a")
          ⟨4, "Server"⟩ "server-a") "Server" "server-a" = some ⟨4, "Server"⟩ ∧
      InjectionRegistry.getInstances
        (InjectionRegistry.register
          (InjectionRegistry.register ⟨[]⟩ ⟨3, "Server"⟩ "server-a")
          ⟨4, "Server"⟩ "server-a") "Server" = [⟨4, "Server"⟩]) :=
  ⟨rfl, rfl, rfl,
    registry_register_same_key_replaces ⟨[]⟩ "Server" "server-a"
      ⟨3, "Server"⟩ ⟨4, "Server"⟩ rfl rfl rfl⟩

/-! ### Concrete objects and worlds used by witnesses and counterexamples -/

/-- C3 counterexample: interception state is keyed by
`constructor.name + "." + method`, not by object identity.  After
`inject(objA, m, cb)`, the distinct same-class object `objB` already sees
the interception: `hasInjections(objB, m)` is `true`, `getInjections`
is non-empty, and the key's stored original is `objA`'s function — so a
later inject on `objB` would not capture `objB`'s own original (6). -/
theorem inject_per_class_key_counterexample :
    objA ≠ objB ∧ objA.className = objB.className ∧
    InjectionHooks.inject demoV0 objA "m" 1 IKind.before 10 =
      Except.ok demoV1 ∧
    InjectionHooks.hasInjections demoV1 objB "m" = true ∧
    InjectionHooks.getInjections demoV1 objB "m" ≠ [] ∧
    alistGet demoV1.originalMethods
      (InjectionHooks.getInjectionKey objB "m") = some (SlotVal.fn 5) ∧
    heapGet demoV1.heap objB.oid "m" = SlotVal.fn 6 :=
  ⟨by decide, rfl, rfl, rfl, by decide, rfl, rfl⟩

/-- C4 counterexample: the invocability check runs only when no original is
stored for the class-level key.  In `demoW1` (key `"C.m"` already captured
via `objA`), `inject` on `objB.m` succeeds although `objB[m]` is
`undefined` — the claimed failure does not occur on every such call. -/
theorem inject_missing_method_counterexample :
    (heapGet demoW1.heap objB.oid "m").isFunction = false ∧
    InjectionHooks.inject demoW1 objB "m" 2 IKind.before 10 =
      Except.ok demoW2 :=
  ⟨rfl, rfl⟩

/-- Shape of a successful `inject`: the key's list was pushed-and-resorted,
and the key's original is stored afterwards. -/
theorem inject_ok_shape (w : World) (t : Obj) (m : String) (cb : Nat)
    (ty : IKind) (pr : Int) (w1 : World)
    (h : InjectionHooks.inject w t m cb ty pr = Except.ok w1) :
    w1.injections = alistSet w.injections (InjectionHooks.getInjectionKey t m)
      (sortInj (fun p => p.priority)
        (((alistGet w.injections (InjectionHooks.getInjectionKey t m)).getD [])
          ++ [⟨t, m, cb, ty, pr⟩])) ∧
    (alistGet w1.originalMethods (InjectionHooks.getInjectionKey t m)).isSome := by
  simp only [InjectionHooks.inject] at h
  split at h
  · exact absurd h (by simp)
  · rename_i originals heq
    have horigs : (alistGet originals
        (InjectionHooks.getInjectionKey t m)).isSome := by
      split at heq
      · rename_i ov hov
        injection heq with heq2
        rw [← heq2, hov]
        rfl
      · rename_i hov
        split at heq
        · injection heq with heq2
          rw [← heq2, alistGet_set_self]
          rfl
        · exact absurd heq (by simp)
    split at h
    · injection h with h2
      subst h2
      exact ⟨rfl, horigs⟩
    · injection h with h2
      subst h2
      exact ⟨rfl, horigs⟩

/-- If the key's original is already stored, `inject` always succeeds and
leaves `originalMethods` unchanged. -/
theorem inject_ok_of_orig_some (w : World) (t : Obj) (m : String) (cb : Nat)
    (ty : IKind) (pr : Int) (ov : SlotVal)
    (hov : alistGet w.originalMethods (InjectionHooks.getInjectionKey t m) =
      some ov) :
    ∃ w2, InjectionHooks.inject w t m cb ty pr = Except.ok w2 ∧
      w2.originalMethods = w.originalMethods := by
  simp only [InjectionHooks.inject, hov, Option.getD_some]
  by_cases hc : heapGet w.heap t.oid m = ov
  · rw [if_pos hc]
    exact ⟨_, rfl, rfl⟩
  · rw [if_neg hc]
    exact ⟨_, rfl, rfl⟩

/-- A first-capture `inject` on an invocable member always succeeds. -/
theorem inject_ok_of_fresh_fun (w : World) (t : Obj) (m : String) (cb : Nat)
    (ty : IKind) (pr : Int)
    (horig : alistGet w.originalMethods (InjectionHooks.getInjectionKey t m) =
      none)
    (hfun : (heapGet w.heap t.oid m).isFunction = true) :
    ∃ w2, InjectionHooks.inject w t m cb ty pr = Except.ok w2 := by
  simp only [InjectionHooks.inject, horig, hfun, if_true]
  by_cases hc : heapGet w.heap t.oid m =
      (alistGet (alistSet w.originalMethods
          (InjectionHooks.getInjectionKey t m) (heapGet w.heap t.oid m))
        (InjectionHooks.getInjectionKey t m)).getD SlotVal.undef
  · rw [if_pos hc]
    exact ⟨_, rfl⟩
  · rw [if_neg hc]
    exact ⟨_, rfl⟩

/-- C3 amended: interception state is tracked per
`(constructor.name, methodName)` key, not per object identity.  For two
same-class objects `A ≠ B`, `getInjections`/`hasInjections` cannot
distinguish them; after a successful `inject` on `A`, `hasInjections B m`
is already `true`, and a later `inject` on `B` does not capture `B`'s own
original — it reuses the key's stored original unchanged. -/
theorem injection_state_per_class_key (w : World) (A B : Obj) (m : String)
    (cb : Nat) (ty : IKind) (pr : Int)
    (hclass : A.className = B.className) :
    InjectionHooks.getInjections w A m = InjectionHooks.getInjections w B m ∧
    InjectionHooks.hasInjections w A m = InjectionHooks.hasInjections w B m ∧
    ∀ w1, InjectionHooks.inject w A m cb ty pr = Except.ok w1 →
      InjectionHooks.hasInjections w1 B m = true ∧
      ∀ (cb2 : Nat) (ty2 : IKind) (pr2 : Int), ∃ w2,
        InjectionHooks.inject w1 B m cb2 ty2 pr2 = Except.ok w2 ∧
        w2.originalMethods = w1.originalMethods := by
  have hkey : InjectionHooks.getInjectionKey A m =
      InjectionHooks.getInjectionKey B m := by
    simp [InjectionHooks.getInjectionKey, hclass]
  refine ⟨by simp [InjectionHooks.getInjections, hkey],
    by simp [InjectionHooks.hasInjections, hkey], ?_⟩
  intro w1 hw1
  rcases inject_ok_shape w A m cb ty pr w1 hw1 with ⟨hinj1, hsome⟩
  constructor
  · simp only [InjectionHooks.hasInjections, ← hkey, hinj1, alistGet_set_self]
    simp [sortInj, List.length_insertionSort]
  · intro cb2 ty2 pr2
    rcases Option.isSome_iff_exists.mp hsome with ⟨ov, hov⟩
    have hov2 : alistGet w1.originalMethods
        (InjectionHooks.getInjectionKey B m) = some ov := by
      rw [← hkey]; exact hov
    exact inject_ok_of_orig_some w1 B m cb2 ty2 pr2 ov hov2

/-- Witness for C3 amended at the concrete two-object world `demoV0`. -/
theorem injection_state_per_class_key_witness :
    objA.className = objB.className ∧
    (InjectionHooks.getInjections demoV0 objA "m" =
        InjectionHooks.getInjections demoV0 objB "m" ∧
      InjectionHooks.hasInjections demoV0 objA "m" =
        InjectionHooks.hasInjections demoV0 objB "m" ∧
      ∀ w1, InjectionHooks.inject demoV0 objA "m" 1 IKind.before 10 =
          Except.ok w1 →
        InjectionHooks.hasInjections w1 objB "m" = true ∧
        ∀ (cb2 : Nat) (ty2 : IKind) (pr2 : Int), ∃ w2,
          InjectionHooks.inject w1 objB "m" cb2 ty2 pr2 = Except.ok w2 ∧
          w2.originalMethods = w1.originalMethods) :=
  ⟨rfl, injection_state_per_class_key demoV0 objA objB "m" 1 IKind.before 10 rfl⟩

/-- C4 amended: `inject` on a non-invocable member fails (with
`Error("Method <m> does not exist on target")`, thrown before any state
mutation) only when no original is yet stored for the class-level key;
a subsequent `inject` on an invocable method of the same target succeeds.
(When the key already has a stored original, the check is skipped — see
the counterexample.) -/
theorem inject_invalid_target_first_capture (w : World) (t : Obj)
    (m : String) (cb : Nat) (ty : IKind) (pr : Int)
    (horig : alistGet w.originalMethods (InjectionHooks.getInjectionKey t m) =
      none)
    (hbad : (heapGet w.heap t.oid m).isFunction = false) :
    InjectionHooks.inject w t m cb ty pr =
      Except.error ("Method " ++ m ++ " does not exist on target") ∧
    ∀ (m2 : String) (cb2 : Nat) (ty2 : IKind) (pr2 : Int),
      (heapGet w.heap t.oid m2).isFunction = true →
      ∃ w2, InjectionHooks.inject w t m2 cb2 ty2 pr2 = Except.ok w2 := by
  constructor
  · simp [InjectionHooks.inject, horig, hbad]
  · intro m2 cb2 ty2 pr2 hfun
    cases halt : alistGet w.originalMethods
        (InjectionHooks.getInjectionKey t m2) with
    | some ov =>
      rcases inject_ok_of_orig_some w t m2 cb2 ty2 pr2 ov halt with ⟨w2, hw2, _⟩
      exact ⟨w2, hw2⟩
    | none => exact inject_ok_of_fresh_fun w t m2 cb2 ty2 pr2 halt hfun

/-- Witness for C4 amended: in `demoW0`, `objA` has no member `x`, so
`inject(objA, "x", ...)` throws; `inject(objA, "m", ...)` still works. -/
theorem inject_invalid_target_first_capture_witness :
    alistGet demoW0.originalMethods
      (InjectionHooks.getInjectionKey objA "x") = none ∧
    (heapGet demoW0.heap objA.oid "x").isFunction = false ∧
    (InjectionHooks.inject demoW0 objA "x" 1 IKind.around 10 =
        Except.error ("Method " ++ "x" ++ " does not exist on target") ∧
      ∀ (m2 : String) (cb2 : Nat) (ty2 : IKind) (pr2 : Int),
        (heapGet demoW0.heap objA.oid m2).isFunction = true →
        ∃ w2, InjectionHooks.inject demoW0 objA m2 cb2 ty2 pr2 =
          Except.ok w2) :=
  ⟨rfl, rfl,
    inject_invalid_target_first_capture demoW0 objA "x" 1 IKind.around 10
      rfl rfl⟩

/-- C5: on a previously unintercepted key, `inject` followed by
`removeInjection` with the same callback is a perfect round trip: the
installed slot is the synthesized dispatcher (≠ the original) while the
list is non-empty, and after removal the whole world — `o[m]`'s exact
original function reference, the `injections` map and the
`originalMethods` map — equals the pre-`inject` state. -/
theorem inject_remove_round_trip (w : World) (o : Obj) (m : String)
    (cb : Nat) (ty : IKind) (pr : Int) (fid : Nat)
    (hinj : alistGet w.injections (InjectionHooks.getInjectionKey o m) = none)
    (horig : alistGet w.originalMethods (InjectionHooks.getInjectionKey o m) =
      none)
    (hslot : heapGet w.heap o.oid m = SlotVal.fn fid) :
    ∃ w1, InjectionHooks.inject w o m cb ty pr = Except.ok w1 ∧
      heapGet w1.heap o.oid m =
        SlotVal.wrappedFn (InjectionHooks.getInjectionKey o m) ∧
      heapGet w1.heap o.oid m ≠ heapGet w.heap o.oid m ∧
      InjectionHooks.getInjections w1 o m ≠ [] ∧
      InjectionHooks.removeInjection w1 o m cb = w := by
  have hget : alistGet w.heap (o.oid, m) = some (SlotVal.fn fid) := by
    cases halt : alistGet w.heap (o.oid, m) with
    | none =>
      rw [heapGet, halt] at hslot
      exact absurd hslot (by simp)
    | some v =>
      rw [heapGet, halt] at hslot
      have hv : v = SlotVal.fn fid := by simpa using hslot
      rw [hv]
  refine ⟨⟨heapSet w.heap o.oid m
      (SlotVal.wrappedFn (InjectionHooks.getInjectionKey o m)),
    alistSet w.injections (InjectionHooks.getInjectionKey o m)
      [⟨o, m, cb, ty, pr⟩],
    alistSet w.originalMethods (InjectionHooks.getInjectionKey o m)
      (SlotVal.fn fid)⟩, ?_, ?_, ?_, ?_, ?_⟩
  · simp only [InjectionHooks.inject, horig, hinj, hslot, SlotVal.isFunction,
      if_true, Option.getD_none, List.nil_append, alistGet_set_self,
      Option.getD_some, if_pos rfl]
    show Except.ok _ = _
    simp [sortInj, List.insertionSort]
  · simp [heapGet, heapSet, alistGet_set_self]
  · simp [heapGet, heapSet, alistGet_set_self, hget]
  · simp [InjectionHooks.getInjections, alistGet_set_self]
  · simp only [InjectionHooks.removeInjection, alistGet_set_self,
      List.findIdx?_cons, beq_self_eq_true, if_true, List.eraseIdx,
      List.isEmpty_nil, Option.getD_some]
    simp only [heapSet, alistSet_set]
    rw [alistSet_get_eq w.heap (o.oid, m) _ hget,
      alistDelete_set_of_none _ _ _ hinj, alistDelete_set_of_none _ _ _ horig]

/-- Witness for C5 at the concrete world `demoW0`. -/
theorem inject_remove_round_trip_witness :
    alistGet demoW0.injections (InjectionHooks.getInjectionKey objA "m") =
      none ∧
    alistGet demoW0.originalMethods
      (InjectionHooks.getInjectionKey objA "m") = none ∧
    heapGet demoW0.heap objA.oid "m" = SlotVal.fn 5 ∧
    (∃ w1, InjectionHooks.inject demoW0 objA "m" 1 IKind.around 10 =
        Except.ok w1 ∧
      heapGet w1.heap objA.oid "m" =
        SlotVal.wrappedFn (InjectionHooks.getInjectionKey objA "m") ∧
      heapGet w1.heap objA.oid "m" ≠ heapGet demoW0.heap objA.oid "m" ∧
      InjectionHooks.getInjections w1 objA "m" ≠ [] ∧
      InjectionHooks.removeInjection w1 objA "m" 1 = demoW0) :=
  ⟨rfl, rfl, rfl,
    inject_remove_round_trip demoW0 objA "m" 1 IKind.around 10 5 rfl rfl rfl⟩

/-! ### Concrete dispatch scenarios -/

/-- C1 counterexample: the key's list sorted by descending priority is
`[aroundP20, aroundP10]`; on a call, the dispatcher's `reduce` makes the
highest-priority point the innermost link, so the first around callback to
start executing is callback 2 — the priority-10 (lowest) one — not the
priority-20 one the claim predicts; execution starts in ascending, not
descending, priority order. -/
theorem around_descending_start_counterexample :
    aroundP20.priority > aroundP10.priority ∧
    aroundRunIds
      (wrappedCall [aroundP20, aroundP10] origOk 99 0 "m" [5] 0).2.2 =
      [2, 1] ∧
    (wrappedCall [aroundP20, aroundP10] origOk 99 0 "m" [5] 0).2.2 =
      [DEvent.aroundRun 2 [5], DEvent.aroundRun 1 [5],
        DEvent.originalRun [5]] :=
  ⟨by decide, rfl, rfl⟩

/-- C1 amended: the around chain is built with the original innermost and
each around point, from highest to lowest priority, wrapping the next
link; the outermost — lowest-priority — point is invoked first with the
original call's arguments, and with pass-through callbacks the around
points start in reverse list order (ascending priority when the list is
sorted descending), each receiving the original arguments, before the
original runs. -/
theorem around_chain_lowest_priority_outermost {σ ε ρ α : Type}
    (l : List (InjPoint σ ε ρ α)) (original : List α → σ → Except ε ρ × σ)
    (tyErr : ε) (thisId : Nat) (method : String) (args : List α) (s : σ)
    (v : ρ) (s1 : σ)
    (hall : ∀ p ∈ l, p.type = IKind.around)
    (hpass : ∀ p ∈ l, p.callback.act = fun _ => CbAct.proceedThen CbAct.ret)
    (horig : original args s = (Except.ok v, s1)) :
    wrappedCall l original tyErr thisId method args s =
      (Except.ok v, s1,
        (l.reverse.map fun p => DEvent.aroundRun p.callback.id args) ++
          [DEvent.originalRun args]) ∧
    (l.Pairwise (fun a b => b.priority ≤ a.priority) →
      (l.reverse.map fun p => p.priority).Pairwise (fun a b => a ≤ b)) := by
  constructor
  · have hbefore : l.filter (fun i => i.type == IKind.before) = [] := by
      rw [List.filter_eq_nil_iff]
      intro p hp
      simp [hall p hp]
    have hafter : l.filter (fun i => i.type == IKind.after) = [] := by
      rw [List.filter_eq_nil_iff]
      intro p hp
      simp [hall p hp]
    have haround : l.filter (fun i => i.type == IKind.around) = l := by
      rw [List.filter_eq_self]
      intro p hp
      simp [hall p hp]
    have hbase : originalLink (α := α) original args s =
        (Except.ok v, s1, [DEvent.originalRun args]) := by
      simp [originalLink, horig]
    cases l with
    | nil =>
      simp [wrappedCall, beforePhase, afterPhase, horig]
    | cons p l2 =>
      have hchain := chainFold_pass thisId method (p :: l2)
        (originalLink original) args s v s1 _ hpass hbase
      simp only [wrappedCall, hbefore, hafter, haround]
      rw [if_pos (by simp)]
      simp [beforePhase, afterPhase, hchain]
  · intro hsort
    refine List.Pairwise.map _ (fun a b hab => hab) ?_
    exact (List.pairwise_reverse).mpr hsort

/-- Witness for C1 amended at the concrete descending two-point list. -/
theorem around_chain_lowest_priority_outermost_witness :
    origOk [5] 0 = (Except.ok 7, 0) ∧
    (wrappedCall [aroundP20, aroundP10] origOk 99 0 "m" [5] 0 =
      (Except.ok 7, 0,
        (([aroundP20, aroundP10].reverse.map
          fun p => DEvent.aroundRun p.callback.id [5]) ++
          [DEvent.originalRun [5]])) ∧
    ([aroundP20, aroundP10].Pairwise (fun a b => b.priority ≤ a.priority) →
      (([aroundP20, aroundP10].reverse.map fun p => p.priority).Pairwise
        (fun a b => a ≤ b)))) :=
  ⟨rfl, around_chain_lowest_priority_outermost [aroundP20, aroundP10] origOk
    99 0 "m" [5] 0 7 0
    (by simp [aroundP20, aroundP10])
    (by simp [aroundP20, aroundP10, passAct])
    rfl⟩

/-- C2 (code bug): when an around callback calls `proceed()` and the
original throws, the error from the original IS caught by the around
layer's `try`, logged as an around-injection error, and the fallback
`next.apply(this, chainArgs)` invokes the original a second time (the
second error then propagates).  At this failing input the trace records
two `originalRun` events and one engine log; with no around points (third
conjunct) the same original's error propagates uncaught after a single
invocation, as the claim demands. -/
theorem original_error_caught_and_retried :
    wrappedCall [aroundP10] origThrow 99 0 "m" [3] 0 =
      (Except.error 7, 2,
        [DEvent.aroundRun 2 [3], DEvent.originalRun [3],
          DEvent.errorLogged IKind.around 7, DEvent.originalRun [3]]) ∧
    originalRuns (wrappedCall [aroundP10] origThrow 99 0 "m" [3] 0).2.2 =
      [[3], [3]] ∧
    wrappedCall ([] : List (InjPoint Nat Nat Nat Nat)) origThrow 99 0 "m"
      [3] 0 = (Except.error 7, 1, [DEvent.originalRun [3]]) :=
  ⟨rfl, rfl, rfl⟩

/-! ### Which events each dispatch part can emit -/

theorem beforeRunIds_chain {σ ε ρ α : Type} (thisId : Nat) (method : String)
    (l : List (InjPoint σ ε ρ α)) (original : List α → σ → Except ε ρ × σ)
    (args : List α) (s : σ) :
    beforeRunIds ((l.foldl (chainStep thisId method)
      (originalLink original)) args s).2.2 = [] :=
  beforeRunIds_eq_nil _ (fun e he i => by
    rcases chainEvents_foldl thisId method l _
      (chainEvents_originalLink original) args s e he with
      ⟨i2, a2, rfl⟩ | ⟨a2, rfl⟩ | ⟨er, rfl⟩ <;> simp)

theorem afterRunIds_chain {σ ε ρ α : Type} (thisId : Nat) (method : String)
    (l : List (InjPoint σ ε ρ α)) (original : List α → σ → Except ε ρ × σ)
    (args : List α) (s : σ) :
    afterRunIds ((l.foldl (chainStep thisId method)
      (originalLink original)) args s).2.2 = [] :=
  afterRunIds_eq_nil _ (fun e he i => by
    rcases chainEvents_foldl thisId method l _
      (chainEvents_originalLink original) args s e he with
      ⟨i2, a2, rfl⟩ | ⟨a2, rfl⟩ | ⟨er, rfl⟩ <;> simp)

theorem beforeRunIds_afterPhase {σ ε ρ α : Type} (thisId : Nat)
    (method : String) (args : List α) (tyErr : ε) (result : ρ)
    (pts : List (InjPoint σ ε ρ α)) (s : σ) :
    beforeRunIds (afterPhase thisId method args tyErr result pts s).2 = [] :=
  beforeRunIds_eq_nil _ (fun e he i => by
    rcases afterPhase_trace_mem thisId method args tyErr result pts s e he with
      ⟨i2, rfl⟩ | ⟨er, rfl⟩ <;> simp)

theorem aroundRunIds_beforePhase {σ ε ρ α : Type} (thisId : Nat)
    (method : String) (args : List α) (tyErr : ε)
    (pts : List (InjPoint σ ε ρ α)) (s : σ) :
    aroundRunIds (beforePhase thisId method args tyErr pts s).2 = [] :=
  aroundRunIds_eq_nil _ (fun e he i a => by
    rcases beforePhase_trace_mem thisId method args tyErr pts s e he with
      ⟨i2, rfl⟩ | ⟨er, rfl⟩ <;> simp)

theorem aroundRunIds_afterPhase {σ ε ρ α : Type} (thisId : Nat)
    (method : String) (args : List α) (tyErr : ε) (result : ρ)
    (pts : List (InjPoint σ ε ρ α)) (s : σ) :
    aroundRunIds (afterPhase thisId method args tyErr result pts s).2 = [] :=
  aroundRunIds_eq_nil _ (fun e he i a => by
    rcases afterPhase_trace_mem thisId method args tyErr result pts s e he with
      ⟨i2, rfl⟩ | ⟨er, rfl⟩ <;> simp)

theorem originalRuns_beforePhase {σ ε ρ α : Type} (thisId : Nat)
    (method : String) (args : List α) (tyErr : ε)
    (pts : List (InjPoint σ ε ρ α)) (s : σ) :
    originalRuns (beforePhase thisId method args tyErr pts s).2 = [] :=
  originalRuns_eq_nil _ (fun e he a => by
    rcases beforePhase_trace_mem thisId method args tyErr pts s e he with
      ⟨i2, rfl⟩ | ⟨er, rfl⟩ <;> simp)

theorem originalRuns_afterPhase {σ ε ρ α : Type} (thisId : Nat)
    (method : String) (args : List α) (tyErr : ε) (result : ρ)
    (pts : List (InjPoint σ ε ρ α)) (s : σ) :
    originalRuns (afterPhase thisId method args tyErr result pts s).2 = [] :=
  originalRuns_eq_nil _ (fun e he a => by
    rcases afterPhase_trace_mem thisId method args tyErr result pts s e he with
      ⟨i2, rfl⟩ | ⟨er, rfl⟩ <;> simp)

theorem afterRunIds_beforePhase {σ ε ρ α : Type} (thisId : Nat)
    (method : String) (args : List α) (tyErr : ε)
    (pts : List (InjPoint σ ε ρ α)) (s : σ) :
    afterRunIds (beforePhase thisId method args tyErr pts s).2 = [] :=
  afterRunIds_eq_nil _ (fun e he i => by
    rcases beforePhase_trace_mem thisId method args tyErr pts s e he with
      ⟨i2, rfl⟩ | ⟨er, rfl⟩ <;> simp)

/-- On every dispatch, the `before` callbacks that start running are exactly
the `before` partition of the key's list, in list order. -/
theorem beforeRunIds_wrappedCall {σ ε ρ α : Type}
    (inj : List (InjPoint σ ε ρ α)) (original : List α → σ → Except ε ρ × σ)
    (tyErr : ε) (thisId : Nat) (method : String) (args : List α) (s : σ) :
    beforeRunIds (wrappedCall inj original tyErr thisId method args s).2.2 =
      (inj.filter (fun i => i.type == IKind.before)).map
        (fun i => i.callback.id) := by
  simp only [wrappedCall]
  by_cases hlen :
      (inj.filter (fun i => i.type == IKind.around)).length > 0
  · rw [if_pos hlen]
    cases hcore : ((inj.filter (fun i => i.type == IKind.around)).foldl
        (chainStep thisId method) (originalLink original)) args
        (beforePhase thisId method args tyErr
          (inj.filter (fun i => i.type == IKind.before)) s).1 with
    | mk r rest =>
      cases r with
      | error e =>
        simp only [hcore, beforeRunIds_append]
        rw [beforeRunIds_beforePhase]
        have := beforeRunIds_chain thisId method
          (inj.filter (fun i => i.type == IKind.around)) original args
          (beforePhase thisId method args tyErr
            (inj.filter (fun i => i.type == IKind.before)) s).1
        rw [hcore] at this
        simp only [this]
        simp
      | ok v =>
        simp only [hcore, beforeRunIds_append]
        rw [beforeRunIds_beforePhase, beforeRunIds_afterPhase]
        have := beforeRunIds_chain thisId method
          (inj.filter (fun i => i.type == IKind.around)) original args
          (beforePhase thisId method args tyErr
            (inj.filter (fun i => i.type == IKind.before)) s).1
        rw [hcore] at this
        simp only [this]
        simp
  · rw [if_neg hlen]
    cases hr : (original args
        (beforePhase thisId method args tyErr
          (inj.filter (fun i => i.type == IKind.before)) s).1).1 with
    | error e =>
      simp only [hr, beforeRunIds_append]
      rw [beforeRunIds_beforePhase]
      simp [beforeRunIds]
    | ok v =>
      simp only [hr, beforeRunIds_append]
      rw [beforeRunIds_beforePhase, beforeRunIds_afterPhase]
      simp [beforeRunIds]

theorem buildFold_sorted {σ ε ρ α : Type} :
    ∀ (pts acc : List (InjPoint σ ε ρ α)),
      acc.Pairwise (fun a b => b.priority ≤ a.priority) →
      (pts.foldl (fun acc2 p => sortInj (fun q => q.priority) (acc2 ++ [p]))
          acc).Pairwise (fun a b => b.priority ≤ a.priority)
  | [], _, h => h
  | p :: pts, acc, _ => by
    rw [List.foldl_cons]
    exact buildFold_sorted pts _ (sortInj_sorted (fun q2 : InjPoint σ ε ρ α => q2.priority) _)

theorem buildFold_filter {σ ε ρ α : Type} (q : Int) :
    ∀ (pts acc : List (InjPoint σ ε ρ α)),
      ((pts.foldl (fun acc2 p => sortInj (fun x => x.priority) (acc2 ++ [p]))
          acc).filter (fun x => x.priority == q)) =
        (acc ++ pts).filter (fun x => x.priority == q)
  | [], acc => by simp
  | p :: pts, acc => by
    rw [List.foldl_cons, buildFold_filter q pts _]
    have h2 := sortInj_filter_prio
      (fun x : InjPoint σ ε ρ α => x.priority) q (acc ++ [p])
    simp only [] at h2
    rw [List.filter_append, h2]
    by_cases hpq : p.priority = q <;> simp [List.filter_append, List.filter_cons, hpq]

/-- C7: the list built by repeated `inject` calls on one key (push, then
stable re-sort by descending priority) is sorted by descending priority
with equal priorities kept in insertion order (the priority-class filter
of the built list equals that of the insertion sequence); on every
dispatch the `before` callbacks start in exactly that list order, so a
higher-priority `before` point always executes strictly before a
lower-priority one, regardless of insertion order. -/
theorem before_points_priority_order {σ ε ρ α : Type}
    (pts : List (InjPoint σ ε ρ α)) (original : List α → σ → Except ε ρ × σ)
    (tyErr : ε) (thisId : Nat) (method : String) (args : List α) (s : σ) :
    (buildInjList pts).Pairwise (fun a b => b.priority ≤ a.priority) ∧
    (∀ q : Int, (buildInjList pts).filter (fun x => x.priority == q) =
      pts.filter (fun x => x.priority == q)) ∧
    beforeRunIds (wrappedCall (buildInjList pts) original tyErr thisId
        method args s).2.2 =
      ((buildInjList pts).filter (fun i => i.type == IKind.before)).map
        (fun i => i.callback.id) ∧
    (((buildInjList pts).filter (fun i => i.type == IKind.before)).map
      (fun i => i.priority)).Pairwise (fun a b => b ≤ a) := by
  have hsorted : (buildInjList pts).Pairwise
      (fun a b => b.priority ≤ a.priority) :=
    buildFold_sorted pts [] (by simp)
  refine ⟨hsorted, ?_, ?_, ?_⟩
  · intro q
    have h2 := buildFold_filter (σ := σ) (ε := ε) (ρ := ρ) (α := α) q pts []
    simpa [buildInjList] using h2
  · exact beforeRunIds_wrappedCall (buildInjList pts) original tyErr thisId
      method args s
  · refine List.Pairwise.map _ (fun a b hab => hab) ?_
    exact List.Pairwise.sublist (List.filter_sublist _) hsorted

theorem beforePhase_state_append {σ ε ρ α : Type} (thisId : Nat)
    (method : String) (args : List α) (tyErr : ε) :
    ∀ (l1 l2 : List (InjPoint σ ε ρ α)) (s : σ),
      (beforePhase thisId method args tyErr (l1 ++ l2) s).1 =
        (beforePhase thisId method args tyErr l2
          (beforePhase thisId method args tyErr l1 s).1).1
  | [], l2, s => rfl
  | p :: l1, l2, s => by
    rw [List.cons_append, beforePhase_cons, beforePhase_cons thisId method args tyErr p l1]
    exact beforePhase_state_append thisId method args tyErr l1 l2 _

/-- Dispatch depends on the key's list only through the before partition's
state effect and trace, and the around/after partitions: two lists that
agree on those yield the same outcome, final state, and (up to the
engine's own log entries from `before`) the same trace. -/
theorem wrappedCall_congr {σ ε ρ α : Type}
    (inj1 inj2 : List (InjPoint σ ε ρ α))
    (original : List α → σ → Except ε ρ × σ) (tyErr : ε) (thisId : Nat)
    (method : String) (args : List α) (s : σ)
    (hb : (beforePhase thisId method args tyErr
        (inj1.filter (fun i => i.type == IKind.before)) s).1 =
      (beforePhase thisId method args tyErr
        (inj2.filter (fun i => i.type == IKind.before)) s).1)
    (hbn : noLog (beforePhase thisId method args tyErr
        (inj1.filter (fun i => i.type == IKind.before)) s).2 =
      noLog (beforePhase thisId method args tyErr
        (inj2.filter (fun i => i.type == IKind.before)) s).2)
    (har : inj1.filter (fun i => i.type == IKind.around) =
      inj2.filter (fun i => i.type == IKind.around))
    (haf : inj1.filter (fun i => i.type == IKind.after) =
      inj2.filter (fun i => i.type == IKind.after)) :
    (wrappedCall inj1 original tyErr thisId method args s).1 =
      (wrappedCall inj2 original tyErr thisId method args s).1 ∧
    (wrappedCall inj1 original tyErr thisId method args s).2.1 =
      (wrappedCall inj2 original tyErr thisId method args s).2.1 ∧
    noLog (wrappedCall inj1 original tyErr thisId method args s).2.2 =
      noLog (wrappedCall inj2 original tyErr thisId method args s).2.2 := by
  simp only [wrappedCall, har, haf, hb]
  by_cases hlen :
      (inj2.filter (fun i => i.type == IKind.around)).length > 0
  · rw [if_pos hlen]
    cases hcore : ((inj2.filter (fun i => i.type == IKind.around)).foldl
        (chainStep thisId method) (originalLink original)) args
        (beforePhase thisId method args tyErr
          (inj2.filter (fun i => i.type == IKind.before)) s).1 with
    | mk r rest =>
      cases r with
      | error e => simp [hcore, noLog_append, hbn]
      | ok v => simp [hcore, noLog_append, hbn]
  · rw [if_neg hlen]
    cases hr : (original args
        (beforePhase thisId method args tyErr
          (inj2.filter (fun i => i.type == IKind.before)) s).1).1 with
    | error e => simp [hr, noLog_append, hbn]
    | ok v => simp [hr, noLog_append, hbn]

/-- C6: a `before` callback that throws does not abort dispatch.  Replacing
a `before` callback by one with the same state effect but a different
return/throw outcome changes nothing observable: the call's result, the
final state, and the trace of callback/original invocations (everything
but the engine's own log entries) are identical; and in either case every
`before` point of the key's list starts running, in order. -/
theorem before_throw_does_not_abort {σ ε ρ α : Type}
    (pre post : List (InjPoint σ ε ρ α)) (tgt : Nat) (mthd : String)
    (id0 : Nat) (b b2 : CtxData α ρ → CbAct σ ε ρ) (pr : Int)
    (original : List α → σ → Except ε ρ × σ) (tyErr : ε) (thisId : Nat)
    (method : String) (args : List α) (s : σ)
    (hEff : befEffect (σ := σ) tyErr b = befEffect tyErr b2) :
    (wrappedCall (pre ++ mkBefore tgt mthd id0 b pr :: post) original tyErr
        thisId method args s).1 =
      (wrappedCall (pre ++ mkBefore tgt mthd id0 b2 pr :: post) original
        tyErr thisId method args s).1 ∧
    (wrappedCall (pre ++ mkBefore tgt mthd id0 b pr :: post) original tyErr
        thisId method args s).2.1 =
      (wrappedCall (pre ++ mkBefore tgt mthd id0 b2 pr :: post) original
        tyErr thisId method args s).2.1 ∧
    noLog (wrappedCall (pre ++ mkBefore tgt mthd id0 b pr :: post) original
        tyErr thisId method args s).2.2 =
      noLog (wrappedCall (pre ++ mkBefore tgt mthd id0 b2 pr :: post)
        original tyErr thisId method args s).2.2 ∧
    beforeRunIds (wrappedCall (pre ++ mkBefore tgt mthd id0 b pr :: post)
        original tyErr thisId method args s).2.2 =
      ((pre ++ mkBefore tgt mthd id0 b pr :: post).filter
        (fun i => i.type == IKind.before)).map (fun i => i.callback.id) := by
  have hstep : ∀ s2 : σ,
      (beforeStep thisId method args tyErr (mkBefore tgt mthd id0 b pr)
        s2).1 =
      (beforeStep thisId method args tyErr (mkBefore tgt mthd id0 b2 pr)
        s2).1 := by
    intro s2
    exact congrFun (congrFun hEff (CtxData.mk thisId method args none)) s2
  have hf1 : (pre ++ mkBefore tgt mthd id0 b pr :: post).filter
      (fun i => i.type == IKind.before) =
      pre.filter (fun i => i.type == IKind.before) ++
        mkBefore tgt mthd id0 b pr ::
          post.filter (fun i => i.type == IKind.before) := by
    simp [List.filter_append, List.filter_cons, mkBefore]
  have hf2 : (pre ++ mkBefore tgt mthd id0 b2 pr :: post).filter
      (fun i => i.type == IKind.before) =
      pre.filter (fun i => i.type == IKind.before) ++
        mkBefore tgt mthd id0 b2 pr ::
          post.filter (fun i => i.type == IKind.before) := by
    simp [List.filter_append, List.filter_cons, mkBefore]
  have hb : (beforePhase thisId method args tyErr
      ((pre ++ mkBefore tgt mthd id0 b pr :: post).filter
        (fun i => i.type == IKind.before)) s).1 =
      (beforePhase thisId method args tyErr
        ((pre ++ mkBefore tgt mthd id0 b2 pr :: post).filter
          (fun i => i.type == IKind.before)) s).1 := by
    rw [hf1, hf2, beforePhase_state_append, beforePhase_state_append,
      beforePhase_cons, beforePhase_cons, hstep]
  have hbn : noLog (beforePhase thisId method args tyErr
      ((pre ++ mkBefore tgt mthd id0 b pr :: post).filter
        (fun i => i.type == IKind.before)) s).2 =
      noLog (beforePhase thisId method args tyErr
        ((pre ++ mkBefore tgt mthd id0 b2 pr :: post).filter
          (fun i => i.type == IKind.before)) s).2 := by
    rw [hf1, hf2, noLog_beforePhase, noLog_beforePhase]
    simp [mkBefore]
  have har : (pre ++ mkBefore tgt mthd id0 b pr :: post).filter
      (fun i => i.type == IKind.around) =
      (pre ++ mkBefore tgt mthd id0 b2 pr :: post).filter
        (fun i => i.type == IKind.around) := by
    simp [List.filter_append, List.filter_cons, mkBefore]
  have haf : (pre ++ mkBefore tgt mthd id0 b pr :: post).filter
      (fun i => i.type == IKind.after) =
      (pre ++ mkBefore tgt mthd id0 b2 pr :: post).filter
        (fun i => i.type == IKind.after) := by
    simp [List.filter_append, List.filter_cons, mkBefore]
  rcases wrappedCall_congr _ _ original tyErr thisId method args s hb hbn
    har haf with ⟨h1, h2, h3⟩
  exact ⟨h1, h2, h3, beforeRunIds_wrappedCall _ original tyErr thisId method
    args s⟩

/-- Witness for C6: a `before` callback that increments the state then
throws error 3, against its twin that increments and returns normally. -/
theorem before_throw_does_not_abort_witness :
    befEffect (α := Nat) 99 befThrow = befEffect 99 befNoThrow ∧
    ((wrappedCall ([] ++ mkBefore 0 "m" 7 befThrow 10 :: []) origOk 99 0
        "m" [4] 0).1 =
      (wrappedCall ([] ++ mkBefore 0 "m" 7 befNoThrow 10 :: []) origOk 99 0
        "m" [4] 0).1 ∧
    (wrappedCall ([] ++ mkBefore 0 "m" 7 befThrow 10 :: []) origOk 99 0
        "m" [4] 0).2.1 =
      (wrappedCall ([] ++ mkBefore 0 "m" 7 befNoThrow 10 :: []) origOk 99 0
        "m" [4] 0).2.1 ∧
    noLog (wrappedCall ([] ++ mkBefore 0 "m" 7 befThrow 10 :: []) origOk 99
        0 "m" [4] 0).2.2 =
      noLog (wrappedCall ([] ++ mkBefore 0 "m" 7 befNoThrow 10 :: []) origOk
        99 0 "m" [4] 0).2.2 ∧
    beforeRunIds (wrappedCall ([] ++ mkBefore 0 "m" 7 befThrow 10 :: [])
        origOk 99 0 "m" [4] 0).2.2 =
      (([] ++ mkBefore 0 "m" 7 befThrow 10 :: []).filter
        (fun i : InjPoint Nat Nat Nat Nat => i.type == IKind.before)).map
        (fun i : InjPoint Nat Nat Nat Nat => i.callback.id)) :=
  ⟨rfl, before_throw_does_not_abort [] [] 0 "m" 7 befThrow befNoThrow
    10 origOk 99 0 "m" [4] 0 rfl⟩

/-- C8: an `around` point whose callback never calls `proceed()` (and
returns normally) prevents the original method and all around layers inner
to it from running: the call's result is exactly the value that callback
returns, the original is never invoked, no other around callback starts,
and the `after` points still all run without altering the result.  (`p`
is the outermost — first-invoked — around point; every other around layer
is inner to it.) -/
theorem around_no_proceed_short_circuits {σ ε ρ α : Type}
    (befores inner afters : List (InjPoint σ ε ρ α)) (p : InjPoint σ ε ρ α)
    (original : List α → σ → Except ε ρ × σ) (tyErr : ε) (thisId : Nat)
    (method : String) (args : List α) (s : σ)
    (hbef : ∀ q ∈ befores, q.type = IKind.before)
    (hinn : ∀ q ∈ inner, q.type = IKind.around)
    (hp : p.type = IKind.around)
    (haft : ∀ q ∈ afters, q.type = IKind.after)
    (hsc : ShortCircuits
      (p.callback.act (CtxData.mk thisId method args none))) :
    (wrappedCall (befores ++ inner ++ p :: afters) original tyErr thisId
        method args s).1 =
      (runCb (α := α) (noProceedF tyErr)
        (p.callback.act (CtxData.mk thisId method args none))
        (beforePhase thisId method args tyErr befores s).1).1 ∧
    (∃ v, (wrappedCall (befores ++ inner ++ p :: afters) original tyErr
      thisId method args s).1 = Except.ok v) ∧
    originalRuns (wrappedCall (befores ++ inner ++ p :: afters) original
      tyErr thisId method args s).2.2 = [] ∧
    aroundRunIds (wrappedCall (befores ++ inner ++ p :: afters) original
      tyErr thisId method args s).2.2 = [p.callback.id] ∧
    afterRunIds (wrappedCall (befores ++ inner ++ p :: afters) original
      tyErr thisId method args s).2.2 =
      afters.map (fun q => q.callback.id) := by
  have hfb : (befores ++ inner ++ p :: afters).filter
      (fun i => i.type == IKind.before) = befores := by
    rw [List.filter_append, List.filter_append, List.filter_cons]
    rw [List.filter_eq_self.mpr (fun a ha => by simp [hbef a ha]),
      List.filter_eq_nil_iff.mpr (fun a ha => by simp [hinn a ha]),
      List.filter_eq_nil_iff.mpr (fun a ha => by simp [haft a ha])]
    simp [hp]
  have hfa : (befores ++ inner ++ p :: afters).filter
      (fun i => i.type == IKind.around) = inner ++ [p] := by
    rw [List.filter_append, List.filter_append, List.filter_cons]
    rw [List.filter_eq_nil_iff.mpr (fun a ha => by simp [hbef a ha]),
      List.filter_eq_self.mpr (fun a ha => by simp [hinn a ha]),
      List.filter_eq_nil_iff.mpr (fun a ha => by simp [haft a ha])]
    simp [hp]
  have hff : (befores ++ inner ++ p :: afters).filter
      (fun i => i.type == IKind.after) = afters := by
    rw [List.filter_append, List.filter_append, List.filter_cons]
    rw [List.filter_eq_nil_iff.mpr (fun a ha => by simp [hbef a ha]),
      List.filter_eq_nil_iff.mpr (fun a ha => by simp [hinn a ha]),
      List.filter_eq_self.mpr (fun a ha => by simp [haft a ha])]
    simp [hp]
  rcases chainStep_sc thisId method
    (inner.foldl (chainStep thisId method) (originalLink original)) p args
    (beforePhase thisId method args tyErr befores s).1 tyErr hsc with
    ⟨hstep, v, hv⟩
  simp only [wrappedCall, hfb, hfa, hff]
  rw [if_pos (by simp)]
  rw [List.foldl_append, List.foldl_cons, List.foldl_nil, hstep, hv]
  simp only [originalRuns_append, aroundRunIds_append, afterRunIds_append,
    originalRuns_beforePhase, aroundRunIds_beforePhase,
    afterRunIds_beforePhase, originalRuns_afterPhase,
    aroundRunIds_afterPhase, afterRunIds_afterPhase]
  refine ⟨trivial, ⟨v, rfl⟩, ?_, ?_, ?_⟩
  · simp [originalRuns]
  · simp [aroundRunIds]
  · simp [afterRunIds, afterRunIds_afterPhase]

/-- Witness for C8 with the concrete non-proceeding around point. -/
theorem around_no_proceed_short_circuits_witness :
    ShortCircuits (scAround.callback.act (CtxData.mk 0 "m" [1] none)) ∧
    ((wrappedCall ([] ++ [] ++ scAround :: []) origOk 99 0 "m" [1] 0).1 =
      (runCb (α := Nat) (noProceedF 99)
        (scAround.callback.act (CtxData.mk 0 "m" [1] none))
        (beforePhase (ρ := Nat) 0 "m" [1] 99 [] 0).1).1 ∧
    (∃ v, (wrappedCall ([] ++ [] ++ scAround :: []) origOk 99 0 "m"
      [1] 0).1 = Except.ok v) ∧
    originalRuns (wrappedCall ([] ++ [] ++ scAround :: []) origOk 99 0 "m"
      [1] 0).2.2 = [] ∧
    aroundRunIds (wrappedCall ([] ++ [] ++ scAround :: []) origOk 99 0 "m"
      [1] 0).2.2 = [scAround.callback.id] ∧
    afterRunIds (wrappedCall ([] ++ [] ++ scAround :: []) origOk 99 0 "m"
      [1] 0).2.2 =
      ([] : List (InjPoint Nat Nat Nat Nat)).map (fun q => q.callback.id)) :=
  ⟨rfl, around_no_proceed_short_circuits [] [] [] scAround origOk 99 0 "m"
    [1] 0 (by simp) (by simp) rfl (by simp) rfl⟩
